import Mathlib

/-!
Verification of the intent-options-trader core against its design document.

The development shallowly embeds the safety gate, the risk engine
(payoff / breakeven analysis and entry cost), the liquidity filter of the
market-data tools, the JSON extraction / schema validation of the agent
output, and the agent iteration loop.  Numbers are embedded as exact
rationals; JavaScript `Math.round(x*100)/100` is embedded as `round2`.
Human-readable warning and error strings are embedded as tagged values
(`SafetyMsg`), since only their identity, never their formatting, is
relevant to the verified properties.
-/

namespace IntentOptions

/-- Side of an option leg, mirroring `side: "buy" | "sell"` in the zod schema. -/
inductive Side where
  | buy
  | sell
deriving DecidableEq, Repr

/-- One option leg, mirroring `LegSchema` of src/lib/schemas.ts. -/
structure Leg where
  instrument_name : String
  side : Side
  amount : ℚ
deriving DecidableEq, Repr

/-- A trade specification, mirroring `TradeSpecSchema` of src/lib/schemas.ts. -/
structure TradeSpec where
  underlying : String
  strategy : String
  expiry : String
  legs : List Leg
  max_cost_usd : ℚ
  max_loss_usd : ℚ
  explanation : String
deriving DecidableEq, Repr

/-- JavaScript `Math.round`: rounds half away from zero upwards, i.e. `⌊x + 1/2⌋`. -/
def jsRound (q : ℚ) : ℤ := ⌊q + 1/2⌋

/-- JavaScript `Math.round(x * 100) / 100`, the 2-decimal rounding used throughout the source. -/
def round2 (q : ℚ) : ℚ := (jsRound (q * 100) : ℚ) / 100

/-- Safety configuration, mirroring `SafetyConfig` (read from the environment by
`getSafetyConfig`; the checks are parametrized by it here since the config is
re-read on every call). -/
structure SafetyConfig where
  maxTradeCostUsd : ℚ
  maxContractsPerLeg : ℚ
  maxSpreadPercent : ℚ
  safeModeEnabled : Bool
deriving DecidableEq, Repr

/-- Warning / error messages pushed by `runSafetyChecks`, embedded as tagged
values carrying the interpolated numbers (string formatting is presentational). -/
inductive SafetyMsg where
  | costExceeded (cost limit : ℚ)
  | contractsExceeded (amt limit : ℚ)
  | spreadExceeded (sp limit : ℚ)
  | noLiquidityData
  | maxLossAboveThreshold (maxLoss limit : ℚ)
deriving DecidableEq, Repr

/-- Result record of `runSafetyChecks`, mirroring `SafetyCheckResult`. -/
structure SafetyCheckResult where
  passes_max_cost : Bool
  passes_max_contracts : Bool
  passes_spread_check : Bool
  spread_percent : Option ℚ
  all_passed : Bool
  warnings : List SafetyMsg
  errors : List SafetyMsg
deriving DecidableEq, Repr

/-- Embedding of `runSafetyChecks` (src/unnamed/part_000, lines 451-509).
`Math.max(...legs.map(amount))` is embedded through `List.max?`; for an empty
leg list JavaScript yields `-Infinity`, which always passes the `<=` test,
matching the `none` branch here. -/
def runSafetyChecks (config : SafetyConfig) (tradeSpec : TradeSpec)
    (estimatedCost : ℚ) (spreadPercent : Option ℚ) : SafetyCheckResult :=
  let passes_max_cost := decide (estimatedCost ≤ config.maxTradeCostUsd)
  let errors₁ : List SafetyMsg :=
    if passes_max_cost then []
    else [SafetyMsg.costExceeded estimatedCost config.maxTradeCostUsd]
  let maxContracts? := (tradeSpec.legs.map Leg.amount).max?
  let passes_max_contracts :=
    match maxContracts? with
    | none => true
    | some m => decide (m ≤ config.maxContractsPerLeg)
  let errors₂ : List SafetyMsg :=
    if passes_max_contracts then []
    else
      [SafetyMsg.contractsExceeded (maxContracts?.getD 0) config.maxContractsPerLeg]
  let spreadCheck : Bool × List SafetyMsg :=
    match spreadPercent with
    | some sp =>
        if sp ≤ config.maxSpreadPercent then (true, [])
        else (false, [SafetyMsg.spreadExceeded sp config.maxSpreadPercent])
    | none => (true, [SafetyMsg.noLiquidityData])
  let warnings₂ : List SafetyMsg :=
    if config.maxTradeCostUsd < tradeSpec.max_loss_usd then
      [SafetyMsg.maxLossAboveThreshold tradeSpec.max_loss_usd config.maxTradeCostUsd]
    else []
  let all_passed :=
    passes_max_cost && passes_max_contracts && (spreadCheck.1 || !config.safeModeEnabled)
  { passes_max_cost := passes_max_cost
    passes_max_contracts := passes_max_contracts
    passes_spread_check := spreadCheck.1
    spread_percent := spreadPercent
    all_passed := all_passed
    warnings := spreadCheck.2 ++ warnings₂
    errors := errors₁ ++ errors₂ }

/-- Reason attached to a denial by `validateTradeBeforeExecution`; the
`accumulatedErrors` constructor carries the error list that the source joins
with a semicolon separator. -/
inductive DenyReason where
  | costExceeded (limit : ℚ)
  | contractsExceeded (limit : ℚ)
  | accumulatedErrors (msgs : List SafetyMsg)
deriving DecidableEq, Repr

/-- Verdict of `validateTradeBeforeExecution`, mirroring
`{ canExecute: boolean; reason?: string }`. -/
structure ExecVerdict where
  canExecute : Bool
  reason : Option DenyReason
deriving DecidableEq, Repr

/-- Trade preview, mirroring the fields of `TradePreviewSchema` consumed and
carried by the safety layer. -/
structure TradePreview where
  tradeSpec : TradeSpec
  total_estimated_cost : ℚ
  max_loss : ℚ
  max_gain : Option ℚ
  breakevens : List ℚ
  safety_checks : SafetyCheckResult
deriving DecidableEq, Repr

/-- Embedding of `validateTradeBeforeExecution` (src/unnamed/part_000,
lines 511-543). -/
def validateTradeBeforeExecution (config : SafetyConfig) (preview : TradePreview) :
    ExecVerdict :=
  if !config.safeModeEnabled then
    { canExecute := true, reason := none }
  else if !preview.safety_checks.passes_max_cost then
    { canExecute := false, reason := some (DenyReason.costExceeded config.maxTradeCostUsd) }
  else if !preview.safety_checks.passes_max_contracts then
    { canExecute := false, reason := some (DenyReason.contractsExceeded config.maxContractsPerLeg) }
  else if preview.safety_checks.errors.length > 0 then
    { canExecute := false,
      reason := some (DenyReason.accumulatedErrors preview.safety_checks.errors) }
  else
    { canExecute := true, reason := none }

/-- Embedding of `calculateSpreadPercent` (src/unnamed/part_000, lines 545-555). -/
def calculateSpreadPercent (bidPrice askPrice : Option ℚ) : Option ℚ :=
  match bidPrice, askPrice with
  | some bid, some ask =>
      if bid ≤ 0 then none
      else
        let midPrice := (bid + ask) / 2
        if midPrice ≤ 0 then none
        else some ((ask - bid) / midPrice * 100)
  | _, _ => none

/-- Option type encoded in an instrument name, mirroring the `"C" | "P"` tag. -/
inductive OptType where
  | call
  | put
deriving DecidableEq, Repr

/-- A leg enriched with parsed strike, option type and premium, mirroring
`LegWithPrice` of the payoff module. -/
structure LegWithPrice where
  instrument_name : String
  side : Side
  amount : ℚ
  strike : ℕ
  optionType : OptType
  premium : ℚ
deriving DecidableEq, Repr

/-- Test for an ASCII uppercase letter, the `[A-Z]` character class. -/
def isUpperAZ (c : Char) : Bool := decide (Char.ofNat 65 ≤ c ∧ c ≤ Char.ofNat 90)

/-- Value of a non-empty digit string, as `parseInt` computes it. -/
def digitsToNat (l : List Char) : ℕ :=
  l.foldl (fun acc c => 10 * acc + (c.toNat - 48)) 0

/-- Embedding of the instrument-name pattern match
`^[A-Z]+-\d\x7b8\x7d-(\d+)-([CP])$` used by `parseLeg` (src/unnamed/part_000,
lines 705-716): four dash-separated fields, the character classes of which
exclude the dash, so the regex succeeds exactly when `splitOn` yields four
well-formed fields. -/
def parseInstrumentName (name : String) : Option (ℕ × OptType) :=
  match name.splitOn "-" with
  | [u, d8, st, ty] =>
      if 1 ≤ u.length ∧ u.data.all isUpperAZ = true ∧ d8.length = 8 ∧
          d8.data.all Char.isDigit = true ∧ 1 ≤ st.length ∧
          st.data.all Char.isDigit = true then
        match ty with
        | "C" => some (digitsToNat st.data, OptType.call)
        | "P" => some (digitsToNat st.data, OptType.put)
        | _ => none
      else none
  | _ => none

/-- Embedding of `parseLeg` (src/unnamed/part_000, lines 705-716). -/
def parseLeg (leg : Leg) (premium : ℚ) : Option LegWithPrice :=
  match parseInstrumentName leg.instrument_name with
  | none => none
  | some (k, t) =>
      some { instrument_name := leg.instrument_name, side := leg.side,
             amount := leg.amount, strike := k, optionType := t, premium := premium }

/-- Embedding of `calculateLegPnl` (src/unnamed/part_000, lines 719-735). -/
def calculateLegPnl (leg : LegWithPrice) (underlyingPrice : ℚ) : ℚ :=
  let intrinsicValue : ℚ :=
    match leg.optionType with
    | OptType.call => max 0 (underlyingPrice - (leg.strike : ℚ))
    | OptType.put => max 0 ((leg.strike : ℚ) - underlyingPrice)
  let direction : ℚ := match leg.side with | Side.buy => 1 | Side.sell => -1
  (intrinsicValue - leg.premium) * leg.amount * direction

/-- Embedding of `calculateTotalPnl` (src/unnamed/part_000, lines 738-743). -/
def calculateTotalPnl (legs : List LegWithPrice) (underlyingPrice : ℚ) : ℚ :=
  legs.foldl (fun total leg => total + calculateLegPnl leg underlyingPrice) 0

/-- Fuel-driven embedding of the bisection `while (high - low > tolerance)`
loop inside `findBreakevens` (src/unnamed/part_000, lines 762-772).  Each
pass halves `high - low` exactly, so the loop runs for a number of steps
computable in advance from the initial gap; `bisect` below supplies fuel
provably sufficient for that many steps. -/
def bisectFuel (legs : List LegWithPrice) (prevPnl tolerance : ℚ) :
    ℕ → ℚ → ℚ → ℚ × ℚ
  | 0, low, high => (low, high)
  | Nat.succ n, low, high =>
      if high - low ≤ tolerance then (low, high)
      else
        let mid := (low + high) / 2
        let midPnl := calculateTotalPnl legs mid
        if (prevPnl < 0 ∧ midPnl < 0) ∨ (0 ≤ prevPnl ∧ 0 ≤ midPnl) then
          bisectFuel legs prevPnl tolerance n mid high
        else
          bisectFuel legs prevPnl tolerance n low mid

/-- Number of halvings after which a gap of `gap` is at most `tolerance`. -/
def bisectSteps (gap tolerance : ℚ) : ℕ := Nat.clog 2 (⌈gap / tolerance⌉.toNat)

/-- The bisection refinement of `findBreakevens` with sufficient fuel. -/
def bisect (legs : List LegWithPrice) (prevPnl tolerance low high : ℚ) : ℚ × ℚ :=
  bisectFuel legs prevPnl tolerance (bisectSteps (high - low) tolerance) low high

/-- Embedding of the scanning `for` loop of `findBreakevens`
(src/unnamed/part_000, lines 752-777).  The JavaScript loop visits
`price = minPrice + k*step` for `k = 1, 2, ...` while `price ≤ maxPrice`;
with exact rational arithmetic this is `k = 1..1000` whenever `step > 0`
(and no iterations when `step < 0`), which the guard reproduces. -/
def findBEGo (legs : List LegWithPrice) (minPrice maxPrice step tolerance : ℚ) :
    ℕ → ℕ → ℚ → List ℚ
  | 0, _, _ => []
  | Nat.succ n, k, prevPnl =>
      if minPrice + k * step ≤ maxPrice then
        if (prevPnl < 0 ∧ 0 ≤ calculateTotalPnl legs (minPrice + k * step)) ∨
            (0 ≤ prevPnl ∧ calculateTotalPnl legs (minPrice + k * step) < 0) then
          round2 (((bisect legs prevPnl tolerance (minPrice + k * step - step)
                (minPrice + k * step)).1 +
              (bisect legs prevPnl tolerance (minPrice + k * step - step)
                (minPrice + k * step)).2) / 2) ::
            findBEGo legs minPrice maxPrice step tolerance n (k + 1)
              (calculateTotalPnl legs (minPrice + k * step))
        else
          findBEGo legs minPrice maxPrice step tolerance n (k + 1)
            (calculateTotalPnl legs (minPrice + k * step))
      else []

/-- Embedding of `findBreakevens` (src/unnamed/part_000, lines 746-780). -/
def findBreakevens (legs : List LegWithPrice) (minPrice maxPrice tolerance : ℚ) :
    List ℚ :=
  let step := (maxPrice - minPrice) / 1000
  findBEGo legs minPrice maxPrice step tolerance 1000 1 (calculateTotalPnl legs minPrice)

/-- Spread minimum `Math.min(...)` over a list known non-empty at call sites. -/
def listMinOf : List ℚ → ℚ
  | [] => 0
  | x :: xs => xs.foldl min x

/-- Spread maximum `Math.max(...)` over a list known non-empty at call sites. -/
def listMaxOf : List ℚ → ℚ
  | [] => 0
  | x :: xs => xs.foldl max x

/-- Parsed legs of a trade: each leg is paired with its premium
(`premiums.get(name) || 0`) and dropped when its name fails to parse. -/
def parsedLegsOf (tradeSpec : TradeSpec) (premiums : List (String × ℚ)) :
    List LegWithPrice :=
  tradeSpec.legs.filterMap fun leg =>
    parseLeg leg ((premiums.lookup leg.instrument_name).getD 0)

/-- Strikes of the parsed legs, as rational prices. -/
def strikesOf (parsedLegs : List LegWithPrice) : List ℚ :=
  parsedLegs.map fun l => (l.strike : ℚ)

/-- Price range of the analysis domain:
`maxStrike - minStrike || currentPrice * 0.2`. -/
def priceRangeOf (parsedLegs : List LegWithPrice) (currentPrice : ℚ) : ℚ :=
  let d := listMaxOf (strikesOf parsedLegs) - listMinOf (strikesOf parsedLegs)
  if d = 0 then currentPrice * (2/10) else d

/-- Lower end of the sampling domain, `max(0, minStrike - priceRange * 0.5)`. -/
def minPriceOf (parsedLegs : List LegWithPrice) (currentPrice : ℚ) : ℚ :=
  max 0 (listMinOf (strikesOf parsedLegs) - priceRangeOf parsedLegs currentPrice * (1/2))

/-- Upper end of the sampling domain, `maxStrike + priceRange * 0.5`. -/
def maxPriceOf (parsedLegs : List LegWithPrice) (currentPrice : ℚ) : ℚ :=
  listMaxOf (strikesOf parsedLegs) + priceRangeOf parsedLegs currentPrice * (1/2)

/-- The 101 sampled prices of the payoff curve. -/
def samplePricesOf (parsedLegs : List LegWithPrice) (currentPrice : ℚ) : List ℚ :=
  (List.range 101).map fun i =>
    minPriceOf parsedLegs currentPrice +
      (maxPriceOf parsedLegs currentPrice - minPriceOf parsedLegs currentPrice) *
        ((i : ℚ) / 100)

/-- The total P&L at each sampled price (before per-point rounding). -/
def samplePnlsOf (parsedLegs : List LegWithPrice) (currentPrice : ℚ) : List ℚ :=
  (samplePricesOf parsedLegs currentPrice).map (calculateTotalPnl parsedLegs)

/-- A sample of the payoff curve, mirroring `PayoffPoint`. -/
structure PayoffPoint where
  price : ℚ
  pnl : ℚ
deriving DecidableEq, Repr

/-- Result of the payoff analysis, mirroring `PayoffAnalysis`
(`maxGain = none` encodes unlimited gain). -/
structure PayoffAnalysis where
  points : List PayoffPoint
  maxLoss : ℚ
  maxGain : Option ℚ
  breakevens : List ℚ
deriving DecidableEq, Repr

/-- Presence of a sold call in the parsed legs. -/
def hasShortCallB (parsedLegs : List LegWithPrice) : Bool :=
  parsedLegs.any fun l => decide (l.side = Side.sell ∧ l.optionType = OptType.call)

/-- Presence of a bought call in the parsed legs. -/
def hasLongCallB (parsedLegs : List LegWithPrice) : Bool :=
  parsedLegs.any fun l => decide (l.side = Side.buy ∧ l.optionType = OptType.call)

/-- Presence of a bought put in the parsed legs. -/
def hasLongPutB (parsedLegs : List LegWithPrice) : Bool :=
  parsedLegs.any fun l => decide (l.side = Side.buy ∧ l.optionType = OptType.put)

/-- Presence of a sold put in the parsed legs. -/
def hasShortPutB (parsedLegs : List LegWithPrice) : Bool :=
  parsedLegs.any fun l => decide (l.side = Side.sell ∧ l.optionType = OptType.put)

/-- Embedding of `calculatePayoff` (src/unnamed/part_000, lines 782-861).
The JavaScript single pass that accumulates `minPnl` / `maxPnl` while
emitting points is split into the equal fold over the same 101 samples. -/
def calculatePayoff (tradeSpec : TradeSpec) (premiums : List (String × ℚ))
    (currentPrice : ℚ) : PayoffAnalysis :=
  let parsedLegs := parsedLegsOf tradeSpec premiums
  if parsedLegs.isEmpty then
    { points := [], maxLoss := tradeSpec.max_loss_usd, maxGain := none, breakevens := [] }
  else
    let minPrice := minPriceOf parsedLegs currentPrice
    let maxPrice := maxPriceOf parsedLegs currentPrice
    let points := (samplePricesOf parsedLegs currentPrice).map fun pr =>
      ({ price := round2 pr, pnl := round2 (calculateTotalPnl parsedLegs pr) } : PayoffPoint)
    let minPnl := listMinOf (samplePnlsOf parsedLegs currentPrice)
    let maxPnl := listMaxOf (samplePnlsOf parsedLegs currentPrice)
    let breakevens := findBreakevens parsedLegs minPrice maxPrice (1/100)
    let pnlAtZero := calculateTotalPnl parsedLegs 0
    let effectiveMaxLoss := |minPnl|
    let g₁ : Option ℚ :=
      if !hasShortCallB parsedLegs && hasLongCallB parsedLegs then none else some maxPnl
    let g₂ : Option ℚ :=
      if hasLongPutB parsedLegs && !hasShortPutB parsedLegs then
        some (max (g₁.getD 0) pnlAtZero)
      else g₁
    { points := points
      maxLoss := round2 effectiveMaxLoss
      maxGain := g₂.map round2
      breakevens := breakevens }

/-- Embedding of `calculateEntryCost` (src/unnamed/part_000, lines 864-880). -/
def calculateEntryCost (tradeSpec : TradeSpec) (premiums : List (String × ℚ)) : ℚ :=
  let totalCost := tradeSpec.legs.foldl
    (fun total leg =>
      let premium := (premiums.lookup leg.instrument_name).getD 0
      if leg.side = Side.buy then total + premium * leg.amount
      else total - premium * leg.amount)
    0
  round2 totalCost

/-- Ticker data consumed by the liquidity filter of
`executeFindLiquidOptions`.  `bid` / `ask` embed the parsed
`best_bid_price` / `best_ask_price`: `none` stands for a missing price string
or the literal string "0" (the source condition `s && s !== "0"`); note that a
non-"0" string that parses to zero, such as "0.0", is embedded as `some 0`. -/
structure LiqTicker where
  bid : Option ℚ
  ask : Option ℚ
  mark : ℚ
deriving DecidableEq, Repr

/-- A candidate instrument paired with its fetched ticker (`none` when the
ticker lookup failed, mirroring `if (!ticker) continue`). -/
structure LiqCandidate where
  instrument_name : String
  ticker : Option LiqTicker
deriving DecidableEq, Repr

/-- The pricing block attached to a surviving instrument. -/
structure LiqPricing where
  bid : Option ℚ
  ask : Option ℚ
  mark : ℚ
  spread_percent : Option ℚ
deriving DecidableEq, Repr

/-- A surviving instrument with pricing, mirroring `InstrumentWithPricing`. -/
structure LiqResult where
  instrument_name : String
  pricing : LiqPricing
deriving DecidableEq, Repr

/-- Spread computation of `executeFindLiquidOptions` (lines 324-329): defined
only when both quotes are present and the bid is positive and the mid price is
positive. -/
def liqSpreadPercent (bid ask : Option ℚ) : Option ℚ :=
  match bid, ask with
  | some b, some a =>
      if 0 < b then
        if 0 < (b + a) / 2 then some ((a - b) / ((b + a) / 2) * 100) else none
      else none
  | _, _ => none

/-- The `isLiquid` test (lines 331-335): both quotes present, and the spread,
when defined, within the maximum. -/
def liqKeep (maxSpread : ℚ) (t : LiqTicker) : Bool :=
  t.bid.isSome && t.ask.isSome &&
    (match liqSpreadPercent t.bid t.ask with
      | none => true
      | some sp => decide (sp ≤ maxSpread))

/-- The filtering loop of `executeFindLiquidOptions` (lines 310-348). -/
def liqBuild (maxSpread : ℚ) (cands : List LiqCandidate) : List LiqResult :=
  cands.filterMap fun c =>
    match c.ticker with
    | none => none
    | some t =>
        if liqKeep maxSpread t then
          some ⟨c.instrument_name, ⟨t.bid, t.ask, t.mark, liqSpreadPercent t.bid t.ask⟩⟩
        else none

/-- Sort key of the final sort (lines 350-355): a missing spread counts
as 100. -/
def liqSortKey (r : LiqResult) : ℚ := r.pricing.spread_percent.getD 100

/-- Stable insertion for the sort: an element is placed before the first
strictly greater key, preserving the relative order of equal keys as the
spec-mandated stable `Array.prototype.sort` does. -/
def liqInsert (x : LiqResult) : List LiqResult → List LiqResult
  | [] => [x]
  | y :: ys => if liqSortKey y < liqSortKey x then y :: liqInsert x ys else x :: y :: ys

/-- Stable insertion sort by ascending spread. -/
def liqSort (l : List LiqResult) : List LiqResult := l.foldr liqInsert []

/-- Resolution of the `max_spread_percent` parameter: `params.max_spread_percent
|| 10`, so an absent parameter or the (falsy) value 0 falls back to 10. -/
def resolveMaxSpread (p : Option ℚ) : ℚ :=
  match p with
  | none => 10
  | some v => if v = 0 then 10 else v

/-- Embedding of the filter-and-sort core of `executeFindLiquidOptions`
(src/unnamed/part_000, lines 264-358).  The network prelude (index price,
instrument discovery, expiry and strike pre-filter, ticker fetch) is external
I/O; the embedded core receives the pre-filtered candidates paired with their
tickers. -/
def executeFindLiquidOptionsCore (maxSpreadParam : Option ℚ)
    (cands : List LiqCandidate) : List LiqResult :=
  liqSort (liqBuild (resolveMaxSpread maxSpreadParam) cands)

/-- JSON values, the image of `JSON.parse` (numbers as exact rationals). -/
inductive Json where
  | null
  | bool (b : Bool)
  | num (q : ℚ)
  | str (s : String)
  | arr (elems : List Json)
  | obj (fields : List (String × Json))

/-- JSON whitespace characters (space, tab, line feed, carriage return). -/
def jsonWs (c : Char) : Bool :=
  decide (c = ' ' ∨ c = Char.ofNat 9 ∨ c = Char.ofNat 10 ∨ c = Char.ofNat 13)

/-- Skip JSON whitespace. -/
def skipJsonWs (cs : List Char) : List Char := cs.dropWhile jsonWs

/-- The JavaScript regex class `\s`, restricted to its ASCII members (space,
tab, line feed, carriage return, vertical tab, form feed); the spec texts in
play are ASCII. -/
def jsWs (c : Char) : Bool :=
  decide (c = ' ' ∨ c = Char.ofNat 9 ∨ c = Char.ofNat 10 ∨ c = Char.ofNat 13 ∨
    c = Char.ofNat 11 ∨ c = Char.ofNat 12)

/-- Trim `\s` characters from both ends, as `\s*([\s\S]*?)\s*` and
`String.prototype.trim` do. -/
def trimChars (l : List Char) : List Char :=
  ((l.dropWhile jsWs).reverse.dropWhile jsWs).reverse

/-- The left-brace and right-brace characters. -/
def lbrace : Char := Char.ofNat 123

/-- The right-brace character. -/
def rbrace : Char := Char.ofNat 125

/-- Hexadecimal digit test. -/
def isHexDigitC (c : Char) : Bool :=
  c.isDigit || (decide ('a' ≤ c ∧ c ≤ 'f')) || (decide ('A' ≤ c ∧ c ≤ 'F'))

/-- String scanner of the JSON grammar; consumes until the closing quote,
decoding the standard escapes (a lone `\uXXXX` is decoded without surrogate
pairing, and control characters are rejected as `JSON.parse` does). -/
def jStrGo : List Char → List Char → Option (String × List Char)
  | [], _ => none
  | c :: rest, acc =>
      if c = '"' then some (String.mk acc.reverse, rest)
      else if c = '\\' then
        match rest with
        | [] => none
        | e :: rest₂ =>
            if e = '"' then jStrGo rest₂ ('"' :: acc)
            else if e = '\\' then jStrGo rest₂ ('\\' :: acc)
            else if e = '/' then jStrGo rest₂ ('/' :: acc)
            else if e = 'b' then jStrGo rest₂ (Char.ofNat 8 :: acc)
            else if e = 'f' then jStrGo rest₂ (Char.ofNat 12 :: acc)
            else if e = 'n' then jStrGo rest₂ (Char.ofNat 10 :: acc)
            else if e = 'r' then jStrGo rest₂ (Char.ofNat 13 :: acc)
            else if e = 't' then jStrGo rest₂ (Char.ofNat 9 :: acc)
            else if e = 'u' then
              match rest₂ with
              | h₁ :: h₂ :: h₃ :: h₄ :: rest₃ =>
                  if isHexDigitC h₁ && isHexDigitC h₂ && isHexDigitC h₃ && isHexDigitC h₄ then
                    jStrGo rest₃ (Char.ofNat
                      (((h₁.toNat % 16 + (if h₁.isDigit then 0 else 9)) * 16 +
                          (h₂.toNat % 16 + (if h₂.isDigit then 0 else 9))) * 16 * 16 +
                        (h₃.toNat % 16 + (if h₃.isDigit then 0 else 9)) * 16 +
                        (h₄.toNat % 16 + (if h₄.isDigit then 0 else 9))) :: acc)
                  else none
              | _ => none
            else none
      else if c.toNat < 32 then none
      else jStrGo rest (c :: acc)

/-- Integer part of a JSON number: `0` or a non-zero digit followed by
digits. -/
def parseIntPart : List Char → Option (ℕ × List Char)
  | [] => none
  | c :: rest =>
      if c = '0' then some (0, rest)
      else if c.isDigit then
        some (digitsToNat (c :: rest.takeWhile Char.isDigit), rest.dropWhile Char.isDigit)
      else none

/-- Optional fraction part of a JSON number. -/
def parseFracPart (cs : List Char) : Option (ℚ × List Char) :=
  match cs with
  | c :: rest =>
      if c = '.' then
        match rest.takeWhile Char.isDigit with
        | [] => none
        | ds => some ((digitsToNat ds : ℚ) / (10 : ℚ) ^ ds.length,
            rest.dropWhile Char.isDigit)
      else some (0, cs)
  | [] => some (0, [])

/-- Optional exponent part of a JSON number. -/
def parseExpPart (cs : List Char) : Option (ℤ × List Char) :=
  match cs with
  | c :: rest =>
      if c = 'e' ∨ c = 'E' then
        match rest with
        | s :: rest₂ =>
            if s = '+' then
              match rest₂.takeWhile Char.isDigit with
              | [] => none
              | ds => some ((digitsToNat ds : ℤ), rest₂.dropWhile Char.isDigit)
            else if s = '-' then
              match rest₂.takeWhile Char.isDigit with
              | [] => none
              | ds => some (-(digitsToNat ds : ℤ), rest₂.dropWhile Char.isDigit)
            else
              match rest.takeWhile Char.isDigit with
              | [] => none
              | ds => some ((digitsToNat ds : ℤ), rest.dropWhile Char.isDigit)
        | [] => none
      else some (0, cs)
  | [] => some (0, [])

/-- A JSON number, strictly per the JSON grammar, as an exact rational. -/
def parseJNum (cs : List Char) : Option (ℚ × List Char) :=
  let sgn : Bool × List Char :=
    match cs with
    | c :: rest => if c = '-' then (true, rest) else (false, cs)
    | [] => (false, cs)
  match parseIntPart sgn.2 with
  | none => none
  | some (ip, cs₂) =>
      match parseFracPart cs₂ with
      | none => none
      | some (fp, cs₃) =>
          match parseExpPart cs₃ with
          | none => none
          | some (e, cs₄) =>
              let base : ℚ := (ip : ℚ) + fp
              let scaled : ℚ :=
                if 0 ≤ e then base * (10 : ℚ) ^ e.toNat else base / (10 : ℚ) ^ (-e).toNat
              some (if sgn.1 then -scaled else scaled, cs₄)

/-- Recursive-descent JSON parsing, fuel-indexed so that the recursion is
structural; each level parses one value, one array tail or one object tail
with the level below, so fuel linear in the input length suffices. -/
def jsonParsers : ℕ →
    (List Char → Option (Json × List Char)) ×
    (List Char → Option (List Json × List Char)) ×
    (List Char → Option (List (String × Json) × List Char))
  | 0 => (fun _ => none, fun _ => none, fun _ => none)
  | Nat.succ fuel =>
      ( fun cs =>
          match skipJsonWs cs with
          | [] => none
          | c :: rest =>
              if c = 'n' then
                match rest with
                | 'u' :: 'l' :: 'l' :: r => some (Json.null, r)
                | _ => none
              else if c = 't' then
                match rest with
                | 'r' :: 'u' :: 'e' :: r => some (Json.bool true, r)
                | _ => none
              else if c = 'f' then
                match rest with
                | 'a' :: 'l' :: 's' :: 'e' :: r => some (Json.bool false, r)
                | _ => none
              else if c = '"' then
                match jStrGo rest [] with
                | some (s, r) => some (Json.str s, r)
                | none => none
              else if c = '[' then
                match skipJsonWs rest with
                | c₂ :: r₂ =>
                    if c₂ = ']' then some (Json.arr [], r₂)
                    else
                      match (jsonParsers fuel).2.1 rest with
                      | some (xs, r) => some (Json.arr xs, r)
                      | none => none
                | [] => none
              else if c = lbrace then
                match skipJsonWs rest with
                | c₂ :: r₂ =>
                    if c₂ = rbrace then some (Json.obj [], r₂)
                    else
                      match (jsonParsers fuel).2.2 rest with
                      | some (fs, r) => some (Json.obj fs, r)
                      | none => none
                | [] => none
              else
                match parseJNum (c :: rest) with
                | some (q, r) => some (Json.num q, r)
                | none => none,
        fun cs =>
          match (jsonParsers fuel).1 cs with
          | none => none
          | some (v, r) =>
              match skipJsonWs r with
              | ',' :: r₂ =>
                  match (jsonParsers fuel).2.1 r₂ with
                  | some (vs, r₃) => some (v :: vs, r₃)
                  | none => none
              | ']' :: r₂ => some ([v], r₂)
              | _ => none,
        fun cs =>
          match skipJsonWs cs with
          | c :: rest =>
              if c = '"' then
                match jStrGo rest [] with
                | some (k, r) =>
                    match skipJsonWs r with
                    | ':' :: r₂ =>
                        match (jsonParsers fuel).1 r₂ with
                        | some (v, r₃) =>
                            match skipJsonWs r₃ with
                            | ',' :: r₄ =>
                                match (jsonParsers fuel).2.2 r₄ with
                                | some (fs, r₅) => some ((k, v) :: fs, r₅)
                                | none => none
                            | c₂ :: r₄ =>
                                if c₂ = rbrace then some ([(k, v)], r₄) else none
                            | _ => none
                        | none => none
                    | _ => none
                | none => none
              else none
          | [] => none )

/-- Full-input JSON parse: the model of `JSON.parse` (success exactly on a
single JSON value with only trailing whitespace). -/
def jsonParseChars (cs : List Char) : Option Json :=
  match (jsonParsers (2 * cs.length + 4)).1 cs with
  | some (v, rest) => if (skipJsonWs rest).isEmpty then some v else none
  | none => none

/-- Option-valued `mapM` by structural recursion (kernel-reducible). -/
def optMapM (f : Json → Option Leg) : List Json → Option (List Leg)
  | [] => some []
  | x :: xs =>
      match f x with
      | none => none
      | some y =>
          match optMapM f xs with
          | none => none
          | some ys => some (y :: ys)

/-- Last-wins field lookup, matching a JavaScript object literal with
duplicate keys. -/
def jGet (fields : List (String × Json)) (key : String) : Option Json :=
  fields.reverse.lookup key

/-- Embedding of `LegSchema.safeParse` on a parsed JSON value. -/
def validateLeg (j : Json) : Option Leg :=
  match j with
  | Json.obj fields =>
      match jGet fields "instrument_name", jGet fields "side", jGet fields "amount" with
      | some (Json.str name), some (Json.str sideStr), some (Json.num amt) =>
          if 1 ≤ name.length ∧ 0 < amt then
            if sideStr = "buy" then some ⟨name, Side.buy, amt⟩
            else if sideStr = "sell" then some ⟨name, Side.sell, amt⟩
            else none
          else none
      | _, _, _ => none
  | _ => none

/-- Embedding of `TradeSpecSchema.safeParse` on a parsed JSON value: same
success set as the zod schema (non-empty strings, at least one valid leg,
non-negative cost and loss). -/
def validateTradeSpec (j : Json) : Option TradeSpec :=
  match j with
  | Json.obj fields =>
      match jGet fields "underlying", jGet fields "strategy", jGet fields "expiry",
          jGet fields "legs", jGet fields "max_cost_usd", jGet fields "max_loss_usd",
          jGet fields "explanation" with
      | some (Json.str u), some (Json.str st), some (Json.str ex),
        some (Json.arr legsJ), some (Json.num mc), some (Json.num ml),
        some (Json.str expl) =>
          match optMapM validateLeg legsJ with
          | some legs =>
              if 1 ≤ u.length ∧ 1 ≤ st.length ∧ 1 ≤ ex.length ∧ legs ≠ [] ∧
                  0 ≤ mc ∧ 0 ≤ ml ∧ 1 ≤ expl.length then
                some ⟨u, st, ex, legs, mc, ml, expl⟩
              else none
          | none => none
      | _, _, _, _, _, _, _ => none
  | _ => none

/-- The validated shape of a TradeSpec as the zod schema enforces it. -/
def ValidTradeSpecShape (ts : TradeSpec) : Prop :=
  1 ≤ ts.underlying.length ∧ 1 ≤ ts.strategy.length ∧ 1 ≤ ts.expiry.length ∧
  ts.legs ≠ [] ∧
  (∀ leg ∈ ts.legs, 1 ≤ leg.instrument_name.length ∧
    (leg.side = Side.buy ∨ leg.side = Side.sell) ∧ 0 < leg.amount) ∧
  0 ≤ ts.max_cost_usd ∧ 0 ≤ ts.max_loss_usd ∧ 1 ≤ ts.explanation.length

/-- Prefix test on character lists. -/
def listStartsWith : List Char → List Char → Bool
  | [], _ => true
  | _ :: _, [] => false
  | p :: ps, c :: cs => p == c && listStartsWith ps cs

/-- Index of the first occurrence of a pattern. -/
def findPatIdx (pat : List Char) : List Char → Option ℕ
  | [] => if pat.isEmpty then some 0 else none
  | c :: rest =>
      if listStartsWith pat (c :: rest) then some 0
      else (findPatIdx pat rest).map (· + 1)

/-- Three backtick characters, the fence marker. -/
def fenceMarker : List Char := [Char.ofNat 96, Char.ofNat 96, Char.ofNat 96]

/-- Content of the first fenced code block, mirroring the match of the regex
over fences with an optional `json` tag: the group between the first fence
(after an optional literal `json`) and the next fence, trimmed of surrounding
whitespace; no match without a closing fence. -/
def fencedCandidate (s : List Char) : Option (List Char) :=
  match findPatIdx fenceMarker s with
  | none => none
  | some i =>
      let after := s.drop (i + 3)
      let body :=
        if listStartsWith ['j', 's', 'o', 'n'] after then after.drop 4 else after
      match findPatIdx fenceMarker body with
      | none => none
      | some k => some (trimChars (body.take k))

/-- The greedy brace span of the regex over braces: from the first left brace
to the last right brace, when the latter comes after the former. -/
def braceCandidate (s : List Char) : Option (List Char) :=
  match s.findIdx? (fun c => c = lbrace) with
  | none => none
  | some i =>
      match s.reverse.findIdx? (fun c => c = rbrace) with
      | none => none
      | some rj =>
          let j := s.length - 1 - rj
          if i < j then some ((s.drop i).take (j - i + 1)) else none

/-- Candidate selection of `AgentParser.extractTradeSpec`
(src/lib/agent-parser.ts, lines 282-297), with the sequential reassignments
of the source: start from the trimmed text, overwrite with the fenced-block
content if a fence matches, then overwrite with the brace span if one
matches. -/
def selectCandidate (text : String) : List Char :=
  let s := text.data
  let j₀ := trimChars s
  let j₁ := match fencedCandidate s with | some c => c | none => j₀
  match braceCandidate s with | some c => c | none => j₁

/-- The selection order as the claim states it: fenced-block content first,
else the brace span, else the raw trimmed text. -/
def selectCandidateClaim (text : String) : List Char :=
  match fencedCandidate text.data with
  | some c => c
  | none =>
      match braceCandidate text.data with
      | some c => c
      | none => trimChars text.data

/-- The selection order the code actually implements: the brace span when one
exists, else the fenced-block content, else the raw trimmed text. -/
def selectCandidateAmended (text : String) : List Char :=
  match braceCandidate text.data with
  | some c => c
  | none =>
      match fencedCandidate text.data with
      | some c => c
      | none => trimChars text.data

/-- Outcome tags of the extraction, mirroring the two throw sites. -/
inductive ExtractErr where
  | parseError
  | schemaError
deriving DecidableEq, Repr

/-- Parse the selected candidate and validate it against the TradeSpec
schema (src/lib/agent-parser.ts, lines 298-322). -/
def parseAndValidate (cs : List Char) : Except ExtractErr TradeSpec :=
  match jsonParseChars cs with
  | none => Except.error ExtractErr.parseError
  | some v =>
      match validateTradeSpec v with
      | none => Except.error ExtractErr.schemaError
      | some ts => Except.ok ts

/-- Embedding of `AgentParser.extractTradeSpec` (src/lib/agent-parser.ts,
lines 282-323). -/
def extractTradeSpec (text : String) : Except ExtractErr TradeSpec :=
  parseAndValidate (selectCandidate text)

/-- A concrete, schema-valid TradeSpec JSON text. -/
def ex5Json : String :=
  "\x7b\"underlying\":\"ETH\",\"strategy\":\"Long Call\",\"expiry\":\"20250110\"," ++
  "\"legs\":[\x7b\"instrument_name\":\"ETH-20250110-100-C\",\"side\":\"buy\"," ++
  "\"amount\":1\x7d],\"max_cost_usd\":5,\"max_loss_usd\":5,\"explanation\":\"ok\"\x7d"

/-- The TradeSpec encoded by `ex5Json`. -/
def ex5Spec : TradeSpec :=
  ⟨"ETH", "Long Call", "20250110", [⟨"ETH-20250110-100-C", Side.buy, 1⟩], 5, 5, "ok"⟩

/-- A model answer with a valid fenced TradeSpec followed by a brace pair in
the commentary: the brace span runs from the opening brace of the JSON to the
closing brace of the commentary, across the fence. -/
def ex5Text : String := "Here: ```json\n" ++ ex5Json ++ "\n``` note \x7b\x7d"

/-- A content block of a model response: a tool-use request or plain text. -/
inductive ContentBlock where
  | toolUse (id name input : String)
  | text (s : String)
deriving DecidableEq, Repr

/-- One model response: content blocks plus the stop reason string. -/
structure ModelResponse where
  content : List ContentBlock
  stop_reason : String
deriving DecidableEq, Repr

/-- A tool result fed back to the model. -/
structure ToolResult where
  tool_use_id : String
  content : String
  is_error : Bool
deriving DecidableEq, Repr

/-- A conversation message, as `parseIntent` builds them. -/
inductive Message where
  | userText (s : String)
  | assistantContent (content : List ContentBlock)
  | userToolResults (results : List ToolResult)
deriving DecidableEq, Repr

/-- Loop-internal mutable state of `AgentParser.parseIntent`: the
conversation, the tool-call counter, the processed tool-id set, and the
number of model calls made so far. -/
structure LoopState where
  messages : List Message
  toolCallCount : ℕ
  toolIdsProcessed : List String
  callIndex : ℕ
deriving DecidableEq, Repr

/-- The fatal errors of the loop, mirroring its three throw sites. -/
inductive LoopError where
  | protocolViolation (stopReason : String) (hasText : Bool)
  | maxIterationsExceeded (bound : ℕ)
  | extractFailure (e : ExtractErr)
deriving DecidableEq, Repr

/-- The iteration bound of the agent loop. -/
def MAX_ITERATIONS : ℕ := 10

/-- A block is a tool use whose id has not been processed yet. -/
def isNewToolUse (processed : List String) (b : ContentBlock) : Bool :=
  match b with
  | ContentBlock.toolUse id _ _ => decide (id ∉ processed)
  | _ => false

/-- The new tool-use blocks of a response (lines 159-168 of
src/lib/agent-parser.ts). -/
def newToolUses (processed : List String) (content : List ContentBlock) :
    List ContentBlock :=
  content.filter (isNewToolUse processed)

/-- The concatenated text content of a response. -/
def textOf (content : List ContentBlock) : String :=
  content.foldl
    (fun acc b => match b with | ContentBlock.text s => acc ++ s | _ => acc) ""

/-- Ids of the tool-use blocks, in order. -/
def toolUseIds (blocks : List ContentBlock) : List String :=
  blocks.filterMap fun b =>
    match b with
    | ContentBlock.toolUse id _ _ => some id
    | _ => none

/-- Sequential execution of the pending tool calls (lines 180-233): a failure
is caught and becomes an error-tagged result.  The abstract
`toolExec` capability stands for `executeLyraTool` composed with the
result stringification and summarization. -/
def execTools (toolExec : String → String → Except String String)
    (blocks : List ContentBlock) : List ToolResult :=
  blocks.filterMap fun b =>
    match b with
    | ContentBlock.toolUse id name input =>
        some (match toolExec name input with
          | Except.ok r => ⟨id, r, false⟩
          | Except.error e => ⟨id, e, true⟩)
    | _ => none

/-- The corrective instruction appended when the model tries to finish with
fewer than 2 tool calls (lines 260-262). -/
def correctiveMessage (toolCallCount : ℕ) : String :=
  "ERROR: You must call lyra_get_index_price AND lyra_find_liquid_options " ++
  "before outputting a TradeSpec. You have only made " ++ toString toolCallCount ++
  " tool calls. Please call the required tools now."

/-- The initial user message of the loop (lines 122-127). -/
def initialUserMessage (intent : String) : String :=
  "Parse this trading intent and create an optimal trade using real market " ++
  "data:\n\n\"" ++ intent ++
  "\"\n\nRemember: You MUST call lyra_get_index_price and " ++
  "lyra_find_liquid_options BEFORE outputting any TradeSpec."

/-- Embedding of the `while (iterations < MAX_ITERATIONS)` loop of
`AgentParser.parseIntent` (src/lib/agent-parser.ts, lines 129-280), as a
fuel-indexed step function over the loop state.  The model capability is the
`responses` oracle, indexed by the number of calls made so far; fuel 0 is the
loop exit, which throws the max-iterations error. -/
def runLoop (responses : ℕ → ModelResponse)
    (toolExec : String → String → Except String String) :
    ℕ → LoopState → Except LoopError TradeSpec × LoopState
  | 0, st => (Except.error (LoopError.maxIterationsExceeded MAX_ITERATIONS), st)
  | Nat.succ n, st =>
      let response := responses st.callIndex
      let toolUseBlocks := newToolUses st.toolIdsProcessed response.content
      let textContent := textOf response.content
      if toolUseBlocks ≠ [] then
        runLoop responses toolExec n
          { messages := st.messages ++ [Message.assistantContent response.content,
              Message.userToolResults (execTools toolExec toolUseBlocks)],
            toolCallCount := st.toolCallCount + toolUseBlocks.length,
            toolIdsProcessed := st.toolIdsProcessed ++ toolUseIds toolUseBlocks,
            callIndex := st.callIndex + 1 }
      else if response.stop_reason = "end_turn" ∧ textContent ≠ "" then
        if st.toolCallCount < 2 then
          runLoop responses toolExec n
            { messages := st.messages ++
                [Message.assistantContent [ContentBlock.text textContent],
                  Message.userText (correctiveMessage st.toolCallCount)],
              toolCallCount := st.toolCallCount,
              toolIdsProcessed := st.toolIdsProcessed,
              callIndex := st.callIndex + 1 }
        else
          match extractTradeSpec textContent with
          | Except.ok ts => (Except.ok ts, { st with callIndex := st.callIndex + 1 })
          | Except.error e =>
              (Except.error (LoopError.extractFailure e),
                { st with callIndex := st.callIndex + 1 })
      else
        (Except.error (LoopError.protocolViolation response.stop_reason
            (decide (textContent ≠ ""))),
          { st with callIndex := st.callIndex + 1 })

/-- Embedding of `AgentParser.parseIntent` (src/lib/agent-parser.ts,
lines 119-280): run the loop with the iteration budget from the initial
conversation. -/
def parseIntent (responses : ℕ → ModelResponse)
    (toolExec : String → String → Except String String) (intent : String) :
    Except LoopError TradeSpec × LoopState :=
  runLoop responses toolExec MAX_ITERATIONS
    ⟨[Message.userText (initialUserMessage intent)], 0, [], 0⟩

/-- A concrete model oracle: two tool calls on the first turn, then a final
raw-JSON answer. -/
def exResponses : ℕ → ModelResponse := fun i =>
  if i = 0 then
    ⟨[ContentBlock.toolUse "a" "lyra_get_index_price" "\x7b\x7d",
      ContentBlock.toolUse "b" "lyra_find_liquid_options" "\x7b\x7d"], "tool_use"⟩
  else ⟨[ContentBlock.text ex5Json], "end_turn"⟩

/-- A concrete tool capability that always succeeds. -/
def exToolExec : String → String → Except String String := fun _ _ => Except.ok "r"

/-- Helper: the boolean contracts check on `List.max?` agrees with the
pointwise bound over all leg amounts. -/
theorem max?_check_iff (l : List ℚ) (b : ℚ) :
    (match l.max? with
      | none => true
      | some m => decide (m ≤ b)) = true ↔ ∀ a ∈ l, a ≤ b := by
  cases h : l.max? with
  | none =>
      rw [List.max?_eq_none_iff] at h
      subst h
      simp
  | some m =>
      simp only [decide_eq_true_eq]
      exact List.max?_le_iff (fun a b c => max_le_iff) h

/-- Claim C1: `all_passed` is true iff the cost check passes
(`estimatedCost ≤ maxTradeCostUsd`), the contracts check passes
(every leg amount is at most `maxContractsPerLeg`), and the spread check
passes or safe mode is disabled; a cost exactly at the limit passes, a cost
above it fails the cost check and blocks the trade regardless of safe mode. -/
theorem runSafetyChecks_all_passed_iff (config : SafetyConfig) (ts : TradeSpec)
    (cost : ℚ) (spread : Option ℚ) :
    (((runSafetyChecks config ts cost spread).all_passed = true) ↔
      (cost ≤ config.maxTradeCostUsd ∧
        (∀ a ∈ ts.legs.map Leg.amount, a ≤ config.maxContractsPerLeg) ∧
        ((∀ v, spread = some v → v ≤ config.maxSpreadPercent) ∨
          config.safeModeEnabled = false)))
    ∧ (cost = config.maxTradeCostUsd →
        (runSafetyChecks config ts cost spread).passes_max_cost = true)
    ∧ (config.maxTradeCostUsd < cost →
        (runSafetyChecks config ts cost spread).passes_max_cost = false ∧
        (runSafetyChecks config ts cost spread).all_passed = false) := by
  refine ⟨?_, ?_, ?_⟩
  · simp only [runSafetyChecks, Bool.and_eq_true, Bool.or_eq_true,
      decide_eq_true_eq, max?_check_iff, Bool.not_eq_true']
    cases spread with
    | none => simp
    | some v =>
        by_cases hv : v ≤ config.maxSpreadPercent <;>
          simp [hv, and_assoc]
  · intro h
    simp [runSafetyChecks, h]
  · intro h
    have hc : ¬ cost ≤ config.maxTradeCostUsd := not_le.mpr h
    simp [runSafetyChecks, hc]

/-- Witness for `runSafetyChecks_all_passed_iff` at a concrete configuration,
trade, cost and spread. -/
theorem runSafetyChecks_all_passed_iff_witness :
    ((200 : ℚ) = (200 : ℚ) →
      (runSafetyChecks ⟨200, 10, 5, true⟩
        ⟨"ETH", "Long Call", "20250110", [⟨"ETH-20250110-3500-C", Side.buy, 1⟩], 200, 150, "x"⟩
        200 (some 3)).passes_max_cost = true) ∧
    (runSafetyChecks ⟨200, 10, 5, true⟩
        ⟨"ETH", "Long Call", "20250110", [⟨"ETH-20250110-3500-C", Side.buy, 1⟩], 200, 150, "x"⟩
        200 (some 3)).passes_max_cost = true :=
  ⟨(runSafetyChecks_all_passed_iff ⟨200, 10, 5, true⟩
      ⟨"ETH", "Long Call", "20250110", [⟨"ETH-20250110-3500-C", Side.buy, 1⟩], 200, 150, "x"⟩
      200 (some 3)).2.1,
    (runSafetyChecks_all_passed_iff ⟨200, 10, 5, true⟩
      ⟨"ETH", "Long Call", "20250110", [⟨"ETH-20250110-3500-C", Side.buy, 1⟩], 200, 150, "x"⟩
      200 (some 3)).2.1 rfl⟩

/-- Claim C8: `validateTradeBeforeExecution` always allows when safe mode is
disabled; otherwise it denies on a failed cost check, then a failed contracts
check, then a non-empty accumulated error list, in that priority order, and
allows only when none of these trigger. -/
theorem validateTradeBeforeExecution_spec (config : SafetyConfig)
    (preview : TradePreview) :
    (config.safeModeEnabled = false →
      validateTradeBeforeExecution config preview = { canExecute := true, reason := none })
    ∧ (((validateTradeBeforeExecution config preview).canExecute = true) ↔
        (config.safeModeEnabled = false ∨
          (preview.safety_checks.passes_max_cost = true ∧
            preview.safety_checks.passes_max_contracts = true ∧
            preview.safety_checks.errors = [])))
    ∧ (config.safeModeEnabled = true →
        preview.safety_checks.passes_max_cost = false →
        (validateTradeBeforeExecution config preview).reason
          = some (DenyReason.costExceeded config.maxTradeCostUsd))
    ∧ (config.safeModeEnabled = true →
        preview.safety_checks.passes_max_cost = true →
        preview.safety_checks.passes_max_contracts = false →
        (validateTradeBeforeExecution config preview).reason
          = some (DenyReason.contractsExceeded config.maxContractsPerLeg))
    ∧ (config.safeModeEnabled = true →
        preview.safety_checks.passes_max_cost = true →
        preview.safety_checks.passes_max_contracts = true →
        preview.safety_checks.errors ≠ [] →
        (validateTradeBeforeExecution config preview).reason
          = some (DenyReason.accumulatedErrors preview.safety_checks.errors)) := by
  refine ⟨?_, ?_, ?_, ?_, ?_⟩
  · intro h
    simp [validateTradeBeforeExecution, h]
  · cases hs : config.safeModeEnabled with
    | false => simp [validateTradeBeforeExecution, hs]
    | true =>
        cases hc : preview.safety_checks.passes_max_cost with
        | false => simp [validateTradeBeforeExecution, hs, hc]
        | true =>
            cases hk : preview.safety_checks.passes_max_contracts with
            | false => simp [validateTradeBeforeExecution, hs, hc, hk]
            | true =>
                cases he : preview.safety_checks.errors with
                | nil => simp [validateTradeBeforeExecution, hs, hc, hk, he]
                | cons m ms => simp [validateTradeBeforeExecution, hs, hc, hk, he]
  · intro hs hc
    simp [validateTradeBeforeExecution, hs, hc]
  · intro hs hc hk
    simp [validateTradeBeforeExecution, hs, hc, hk]
  · intro hs hc hk he
    have : preview.safety_checks.errors.length > 0 := by
      cases h : preview.safety_checks.errors with
      | nil => exact absurd h he
      | cons m ms => simp [h]
    simp [validateTradeBeforeExecution, hs, hc, hk, this]

/-- Witness for `validateTradeBeforeExecution_spec` at a concrete preview whose
cost check failed under safe mode. -/
theorem validateTradeBeforeExecution_spec_witness :
    (validateTradeBeforeExecution ⟨200, 10, 5, true⟩
      ⟨⟨"ETH", "Long Call", "20250110", [⟨"ETH-20250110-3500-C", Side.buy, 1⟩], 200, 150, "x"⟩,
        250, 250, none, [],
        ⟨false, true, true, some 3, false, [], [SafetyMsg.costExceeded 250 200]⟩⟩).reason
      = some (DenyReason.costExceeded 200) :=
  (validateTradeBeforeExecution_spec ⟨200, 10, 5, true⟩
      ⟨⟨"ETH", "Long Call", "20250110", [⟨"ETH-20250110-3500-C", Side.buy, 1⟩], 200, 150, "x"⟩,
        250, 250, none, [],
        ⟨false, true, true, some 3, false, [], [SafetyMsg.costExceeded 250 200]⟩⟩).2.2.1
    rfl rfl

/-- Claim C10: the error list of `runSafetyChecks` is non-empty exactly when
the cost check or the contracts check failed, every error is a cost or a
contracts error (spread failures and a high `max_loss_usd` only produce
warnings), and therefore the accumulated-errors deny branch of
`validateTradeBeforeExecution` never fires on a preview whose checks were
produced by `runSafetyChecks`. -/
theorem runSafetyChecks_errors_iff (config : SafetyConfig) (ts : TradeSpec)
    (cost : ℚ) (spread : Option ℚ) :
    (((runSafetyChecks config ts cost spread).errors ≠ []) ↔
      ((runSafetyChecks config ts cost spread).passes_max_cost = false ∨
        (runSafetyChecks config ts cost spread).passes_max_contracts = false))
    ∧ (∀ m ∈ (runSafetyChecks config ts cost spread).errors,
        (∃ c l, m = SafetyMsg.costExceeded c l) ∨
          (∃ a l, m = SafetyMsg.contractsExceeded a l))
    ∧ (∀ config₂ preview,
        preview.safety_checks = runSafetyChecks config ts cost spread →
        ∀ msgs, (validateTradeBeforeExecution config₂ preview).reason ≠
          some (DenyReason.accumulatedErrors msgs)) := by
  have herr : (runSafetyChecks config ts cost spread).errors =
      (if (runSafetyChecks config ts cost spread).passes_max_cost then []
        else [SafetyMsg.costExceeded cost config.maxTradeCostUsd]) ++
      (if (runSafetyChecks config ts cost spread).passes_max_contracts then []
        else [SafetyMsg.contractsExceeded
          (((ts.legs.map Leg.amount).max?).getD 0) config.maxContractsPerLeg]) := by
    simp only [runSafetyChecks]
  refine ⟨?_, ?_, ?_⟩
  · rw [herr]
    cases hc : (runSafetyChecks config ts cost spread).passes_max_cost <;>
      cases hk : (runSafetyChecks config ts cost spread).passes_max_contracts <;>
        simp
  · intro m hm
    rw [herr] at hm
    rcases List.mem_append.mp hm with h | h
    · left
      rcases Classical.em ((runSafetyChecks config ts cost spread).passes_max_cost = true) with
        hp | hp <;> simp [hp] at h
      exact ⟨cost, config.maxTradeCostUsd, h⟩
    · right
      rcases Classical.em
          ((runSafetyChecks config ts cost spread).passes_max_contracts = true) with
        hp | hp <;> simp [hp] at h
      exact ⟨(((ts.legs.map Leg.amount).max?).getD 0), config.maxContractsPerLeg, h⟩
  · intro config₂ preview hpre msgs
    cases hs : config₂.safeModeEnabled with
    | false => simp [validateTradeBeforeExecution, hs]
    | true =>
        cases hc : preview.safety_checks.passes_max_cost with
        | false => simp [validateTradeBeforeExecution, hs, hc]
        | true =>
            cases hk : preview.safety_checks.passes_max_contracts with
            | false => simp [validateTradeBeforeExecution, hs, hc, hk]
            | true =>
                have he : preview.safety_checks.errors = [] := by
                  rw [hpre] at hc hk ⊢
                  rw [herr, hc, hk]
                  simp
                simp [validateTradeBeforeExecution, hs, hc, hk, he]

/-- Witness for `runSafetyChecks_errors_iff` at a concrete preview built from
a concrete safety-check run. -/
theorem runSafetyChecks_errors_iff_witness :
    (validateTradeBeforeExecution ⟨200, 10, 5, true⟩
      ⟨⟨"ETH", "Long Call", "20250110", [⟨"ETH-20250110-3500-C", Side.buy, 12⟩], 200, 150, "x"⟩,
        100, 100, none, [],
        runSafetyChecks ⟨200, 10, 5, true⟩
          ⟨"ETH", "Long Call", "20250110", [⟨"ETH-20250110-3500-C", Side.buy, 12⟩], 200, 150, "x"⟩
          100 (some 3)⟩).reason ≠
      some (DenyReason.accumulatedErrors []) :=
  (runSafetyChecks_errors_iff ⟨200, 10, 5, true⟩
      ⟨"ETH", "Long Call", "20250110", [⟨"ETH-20250110-3500-C", Side.buy, 12⟩], 200, 150, "x"⟩
      100 (some 3)).2.2 ⟨200, 10, 5, true⟩ _ rfl []

/-- Helper: the signed per-leg contribution to the entry cost. -/
theorem entryCost_foldl (premiums : List (String × ℚ)) (l : List Leg) (init : ℚ) :
    (l.foldl
      (fun total leg =>
        let premium := (premiums.lookup leg.instrument_name).getD 0
        if leg.side = Side.buy then total + premium * leg.amount
        else total - premium * leg.amount)
      init)
    = init + (l.map fun leg =>
        (if leg.side = Side.buy then (1 : ℚ) else -1) *
          ((premiums.lookup leg.instrument_name).getD 0) * leg.amount).sum := by
  induction l generalizing init with
  | nil => simp
  | cons x xs ih =>
      simp only [List.foldl_cons, List.map_cons, List.sum_cons, ih]
      cases hx : x.side <;> simp [hx] <;> ring

/-- Helper: rounding to two decimals moves strictly down when the argument
drops by at least one cent. -/
theorem round2_lt_of_le_sub (x y : ℚ) (h : x ≤ y - 1/100) : round2 x < round2 y := by
  have h₁ : jsRound (x * 100) ≤ jsRound (y * 100) - 1 := by
    have hx : x * 100 + 1/2 ≤ y * 100 + 1/2 - 1 := by linarith
    have := Int.floor_le_floor hx
    calc jsRound (x * 100) = ⌊x * 100 + 1/2⌋ := rfl
      _ ≤ ⌊y * 100 + 1/2 - 1⌋ := this
      _ = ⌊y * 100 + 1/2 - (1 : ℤ)⌋ := by norm_num
      _ = ⌊y * 100 + 1/2⌋ - 1 := Int.floor_sub_int _ 1
      _ = jsRound (y * 100) - 1 := rfl
  have h₂ : (jsRound (x * 100) : ℚ) < jsRound (y * 100) := by
    have : jsRound (x * 100) < jsRound (y * 100) := by omega
    exact_mod_cast this
  exact div_lt_div_of_pos_right h₂ (by norm_num)

/-- Claim C9 (counterexample): appending a sell leg does not always strictly
decrease the entry cost — when the appended leg has no premium data its
contribution is zero and the rounded cost is unchanged. -/
theorem calculateEntryCost_append_sell_counterexample :
    ¬ (calculateEntryCost
        ⟨"ETH", "s", "e", [⟨"A", Side.buy, 1⟩, ⟨"B", Side.sell, 1⟩], 0, 0, "x"⟩ []
      < calculateEntryCost ⟨"ETH", "s", "e", [⟨"A", Side.buy, 1⟩], 0, 0, "x"⟩ []) :=
  of_decide_eq_true (by with_unfolding_all rfl)

/-- Claim C9 (amended): the entry cost is the two-decimal rounding of the
signed sum of premium times amount over the legs (positive for buys,
negative for sells); it is zero when no leg has premium data; it is invariant
under permutation of the legs; and appending a sell (resp. buy) leg strictly
decreases (resp. increases) it provided the appended premium times amount is
at least one cent, so that it survives the rounding. -/
theorem calculateEntryCost_spec (ts : TradeSpec) (premiums : List (String × ℚ)) :
    (calculateEntryCost ts premiums =
      round2 ((ts.legs.map fun leg =>
        (if leg.side = Side.buy then (1 : ℚ) else -1) *
          ((premiums.lookup leg.instrument_name).getD 0) * leg.amount).sum))
    ∧ ((∀ leg ∈ ts.legs, premiums.lookup leg.instrument_name = none) →
        calculateEntryCost ts premiums = 0)
    ∧ (∀ ts₂ : TradeSpec, ts₂.legs.Perm ts.legs →
        calculateEntryCost ts₂ premiums = calculateEntryCost ts premiums)
    ∧ (∀ leg : Leg, leg.side = Side.sell →
        1/100 ≤ ((premiums.lookup leg.instrument_name).getD 0) * leg.amount →
        calculateEntryCost
          ⟨ts.underlying, ts.strategy, ts.expiry, ts.legs ++ [leg],
            ts.max_cost_usd, ts.max_loss_usd, ts.explanation⟩ premiums
          < calculateEntryCost ts premiums)
    ∧ (∀ leg : Leg, leg.side = Side.buy →
        1/100 ≤ ((premiums.lookup leg.instrument_name).getD 0) * leg.amount →
        calculateEntryCost ts premiums
          < calculateEntryCost
            ⟨ts.underlying, ts.strategy, ts.expiry, ts.legs ++ [leg],
              ts.max_cost_usd, ts.max_loss_usd, ts.explanation⟩ premiums) := by
  have hmain : ∀ l : List Leg,
      (l.foldl
        (fun total leg =>
          let premium := (premiums.lookup leg.instrument_name).getD 0
          if leg.side = Side.buy then total + premium * leg.amount
          else total - premium * leg.amount)
        0)
      = (l.map fun leg =>
          (if leg.side = Side.buy then (1 : ℚ) else -1) *
            ((premiums.lookup leg.instrument_name).getD 0) * leg.amount).sum := by
    intro l
    rw [entryCost_foldl]
    ring
  refine ⟨?_, ?_, ?_, ?_, ?_⟩
  · simp only [calculateEntryCost, hmain]
  · intro h
    have : (ts.legs.map fun leg =>
        (if leg.side = Side.buy then (1 : ℚ) else -1) *
          ((premiums.lookup leg.instrument_name).getD 0) * leg.amount) =
        ts.legs.map fun _ => (0 : ℚ) := by
      apply List.map_congr_left
      intro leg hleg
      rw [h leg hleg]
      simp
    simp only [calculateEntryCost, hmain, this]
    have hz : (List.map (fun _ : Leg => (0 : ℚ)) ts.legs).sum = 0 := by simp
    rw [hz]
    norm_num [round2, jsRound]
  · intro ts₂ hperm
    simp only [calculateEntryCost, hmain]
    congr 1
    exact List.Perm.sum_eq (hperm.map _)
  · intro leg hside hp
    simp only [calculateEntryCost, hmain, List.map_append, List.sum_append,
      List.map_cons, List.map_nil, List.sum_cons, List.sum_nil, hside]
    apply round2_lt_of_le_sub
    simp only [reduceCtorEq, if_false]
    linarith
  · intro leg hside hp
    simp only [calculateEntryCost, hmain, List.map_append, List.sum_append,
      List.map_cons, List.map_nil, List.sum_cons, List.sum_nil, hside]
    apply round2_lt_of_le_sub
    simp only [if_true]
    linarith

/-- Witness for `calculateEntryCost_spec`: with premium data present, a sell
leg worth three dollars strictly decreases a concrete entry cost. -/
theorem calculateEntryCost_spec_witness :
    calculateEntryCost
      ⟨"ETH", "s", "e", [⟨"A", Side.buy, 2⟩, ⟨"B", Side.sell, 1⟩], 0, 0, "x"⟩
      [("A", 5), ("B", 3)]
    < calculateEntryCost ⟨"ETH", "s", "e", [⟨"A", Side.buy, 2⟩], 0, 0, "x"⟩
      [("A", 5), ("B", 3)] :=
  (calculateEntryCost_spec ⟨"ETH", "s", "e", [⟨"A", Side.buy, 2⟩], 0, 0, "x"⟩
      [("A", 5), ("B", 3)]).2.2.2.1 ⟨"B", Side.sell, 1⟩ rfl
    (of_decide_eq_true (by with_unfolding_all rfl))

/-- Helper: the two-decimal rounding moves a value by at most half a cent. -/
theorem round2_err (x : ℚ) : |round2 x - x| ≤ 1/200 := by
  have h₁ : (jsRound (x * 100) : ℚ) ≤ x * 100 + 1/2 := Int.floor_le _
  have h₂ : x * 100 + 1/2 < (jsRound (x * 100) : ℚ) + 1 := Int.lt_floor_add_one _
  have hr : round2 x = (jsRound (x * 100) : ℚ) / 100 := rfl
  rw [abs_le, hr]
  constructor <;> linarith

/-- Helper: the chosen fuel makes the initial bisection gap at most
`tolerance * 2 ^ fuel`. -/
theorem gap_le_tol_mul_pow (gap tol : ℚ) (htol : 0 < tol) :
    gap ≤ tol * 2 ^ bisectSteps gap tol := by
  rcases le_or_lt gap 0 with hg | hg
  · have : (0 : ℚ) < tol * 2 ^ bisectSteps gap tol :=
      mul_pos htol (by positivity)
    linarith
  · have hq : 0 < gap / tol := div_pos hg htol
    have hceil : 0 < ⌈gap / tol⌉ := Int.ceil_pos.mpr hq
    set m : ℕ := (⌈gap / tol⌉).toNat with hm
    have hcast : ((m : ℤ) : ℚ) = (⌈gap / tol⌉ : ℚ) := by
      rw [hm, Int.toNat_of_nonneg (le_of_lt hceil)]
    have hle : (m : ℕ) ≤ 2 ^ Nat.clog 2 m := Nat.le_pow_clog (by norm_num) m
    have hle' : (m : ℚ) ≤ (2 : ℚ) ^ Nat.clog 2 m := by
      calc (m : ℚ) ≤ ((2 ^ Nat.clog 2 m : ℕ) : ℚ) := by exact_mod_cast hle
        _ = (2 : ℚ) ^ Nat.clog 2 m := by push_cast; ring
    have hgt : gap / tol ≤ (⌈gap / tol⌉ : ℚ) := Int.le_ceil _
    have : gap / tol ≤ (2 : ℚ) ^ Nat.clog 2 m := by
      calc gap / tol ≤ (⌈gap / tol⌉ : ℚ) := hgt
        _ = ((m : ℤ) : ℚ) := hcast.symm
        _ = (m : ℚ) := by push_cast; ring
        _ ≤ (2 : ℚ) ^ Nat.clog 2 m := hle'
    rw [bisectSteps, ← hm]
    calc gap = (gap / tol) * tol := by field_simp
      _ ≤ (2 : ℚ) ^ Nat.clog 2 m * tol := by
          exact mul_le_mul_of_nonneg_right this (le_of_lt htol)
      _ = tol * 2 ^ Nat.clog 2 m := by ring

/-- Helper: invariants of the bisection loop at an upward zero crossing
(previous P&L negative): the returned bracket keeps a negative P&L on the
left, a non-negative P&L on the right, and narrows to the tolerance. -/
theorem bisectFuel_up (legs : List LegWithPrice) (prev tol : ℚ) (hprev : prev < 0) :
    ∀ (n : ℕ) (low high : ℚ),
      calculateTotalPnl legs low < 0 → 0 ≤ calculateTotalPnl legs high → low ≤ high →
      high - low ≤ tol * 2 ^ n →
      calculateTotalPnl legs (bisectFuel legs prev tol n low high).1 < 0 ∧
      0 ≤ calculateTotalPnl legs (bisectFuel legs prev tol n low high).2 ∧
      (bisectFuel legs prev tol n low high).1 ≤ (bisectFuel legs prev tol n low high).2 ∧
      (bisectFuel legs prev tol n low high).2 - (bisectFuel legs prev tol n low high).1 ≤ tol := by
  intro n
  induction n with
  | zero =>
      intro low high hl hh hle hgap
      simp only [bisectFuel]
      refine ⟨hl, hh, hle, ?_⟩
      simpa using hgap
  | succ n ih =>
      intro low high hl hh hle hgap
      simp only [bisectFuel]
      by_cases hstop : high - low ≤ tol
      · rw [if_pos hstop]
        exact ⟨hl, hh, hle, hstop⟩
      · rw [if_neg hstop]
        rw [pow_succ] at hgap
        by_cases hm : calculateTotalPnl legs ((low + high) / 2) < 0
        · rw [if_pos (Or.inl ⟨hprev, hm⟩)]
          exact ih ((low + high) / 2) high hm hh (by linarith) (by linarith)
        · have hcond : ¬ ((prev < 0 ∧ calculateTotalPnl legs ((low + high) / 2) < 0) ∨
              (0 ≤ prev ∧ 0 ≤ calculateTotalPnl legs ((low + high) / 2))) := by
            push_neg
            exact ⟨fun _ => le_of_not_lt hm, fun h0 => absurd h0 (not_le.mpr hprev)⟩
          rw [if_neg hcond]
          exact ih low ((low + high) / 2) hl (le_of_not_lt hm) (by linarith) (by linarith)

/-- Helper: invariants of the bisection loop at a downward zero crossing
(previous P&L non-negative). -/
theorem bisectFuel_down (legs : List LegWithPrice) (prev tol : ℚ) (hprev : 0 ≤ prev) :
    ∀ (n : ℕ) (low high : ℚ),
      0 ≤ calculateTotalPnl legs low → calculateTotalPnl legs high < 0 → low ≤ high →
      high - low ≤ tol * 2 ^ n →
      0 ≤ calculateTotalPnl legs (bisectFuel legs prev tol n low high).1 ∧
      calculateTotalPnl legs (bisectFuel legs prev tol n low high).2 < 0 ∧
      (bisectFuel legs prev tol n low high).1 ≤ (bisectFuel legs prev tol n low high).2 ∧
      (bisectFuel legs prev tol n low high).2 - (bisectFuel legs prev tol n low high).1 ≤ tol := by
  intro n
  induction n with
  | zero =>
      intro low high hl hh hle hgap
      simp only [bisectFuel]
      refine ⟨hl, hh, hle, ?_⟩
      simpa using hgap
  | succ n ih =>
      intro low high hl hh hle hgap
      simp only [bisectFuel]
      by_cases hstop : high - low ≤ tol
      · rw [if_pos hstop]
        exact ⟨hl, hh, hle, hstop⟩
      · rw [if_neg hstop]
        rw [pow_succ] at hgap
        by_cases hm : 0 ≤ calculateTotalPnl legs ((low + high) / 2)
        · rw [if_pos (Or.inr ⟨hprev, hm⟩)]
          exact ih ((low + high) / 2) high hm hh (by linarith) (by linarith)
        · have hcond : ¬ ((prev < 0 ∧ calculateTotalPnl legs ((low + high) / 2) < 0) ∨
              (0 ≤ prev ∧ 0 ≤ calculateTotalPnl legs ((low + high) / 2))) := by
            push_neg
            exact ⟨fun h0 => absurd h0 (not_lt.mpr hprev), fun _ => lt_of_not_le hm⟩
          rw [if_neg hcond]
          exact ih low ((low + high) / 2) hl (lt_of_not_le hm) (by linarith) (by linarith)

/-- Helper: at an upward crossing the refined, rounded midpoint is within
half a cent plus half the tolerance of the exact zero of the P&L. -/
theorem bisect_up_value (legs : List LegWithPrice) (prev tol low high z : ℚ)
    (htol : 0 < tol) (hprev : prev < 0)
    (hth : ∀ S, calculateTotalPnl legs S < 0 ↔ S < z)
    (hl : calculateTotalPnl legs low < 0) (hh : 0 ≤ calculateTotalPnl legs high)
    (hle : low ≤ high) :
    |round2 (((bisect legs prev tol low high).1 + (bisect legs prev tol low high).2) / 2) - z|
      ≤ 1/200 + tol / 2 := by
  have hgap := gap_le_tol_mul_pow (high - low) tol htol
  obtain ⟨h₁, h₂, h₃, h₄⟩ :=
    bisectFuel_up legs prev tol hprev (bisectSteps (high - low) tol) low high hl hh hle hgap
  rw [show bisect legs prev tol low high =
      bisectFuel legs prev tol (bisectSteps (high - low) tol) low high from rfl]
  set l := (bisectFuel legs prev tol (bisectSteps (high - low) tol) low high).1 with hldef
  set h := (bisectFuel legs prev tol (bisectSteps (high - low) tol) low high).2 with hhdef
  have hlz : l < z := (hth _).mp h₁
  have hhz : z ≤ h := by
    by_contra hc
    exact absurd ((hth _).mpr (not_le.mp hc)) (not_lt.mpr h₂)
  have hmid : |(l + h) / 2 - z| ≤ tol / 2 := by
    rw [abs_le]
    constructor <;> linarith
  calc |round2 ((l + h) / 2) - z|
      ≤ |round2 ((l + h) / 2) - (l + h) / 2| + |(l + h) / 2 - z| := abs_sub_le _ _ _
    _ ≤ 1/200 + tol / 2 := add_le_add (round2_err _) hmid

/-- Helper: at a downward crossing the refined, rounded midpoint is within
half a cent plus half the tolerance of the exact zero of the P&L. -/
theorem bisect_down_value (legs : List LegWithPrice) (prev tol low high z : ℚ)
    (htol : 0 < tol) (hprev : 0 ≤ prev)
    (hth : ∀ S, calculateTotalPnl legs S < 0 ↔ z < S)
    (hl : 0 ≤ calculateTotalPnl legs low) (hh : calculateTotalPnl legs high < 0)
    (hle : low ≤ high) :
    |round2 (((bisect legs prev tol low high).1 + (bisect legs prev tol low high).2) / 2) - z|
      ≤ 1/200 + tol / 2 := by
  have hgap := gap_le_tol_mul_pow (high - low) tol htol
  obtain ⟨h₁, h₂, h₃, h₄⟩ :=
    bisectFuel_down legs prev tol hprev (bisectSteps (high - low) tol) low high hl hh hle hgap
  rw [show bisect legs prev tol low high =
      bisectFuel legs prev tol (bisectSteps (high - low) tol) low high from rfl]
  set l := (bisectFuel legs prev tol (bisectSteps (high - low) tol) low high).1 with hldef
  set h := (bisectFuel legs prev tol (bisectSteps (high - low) tol) low high).2 with hhdef
  have hlz : l ≤ z := by
    by_contra hc
    exact absurd ((hth _).mpr (not_le.mp hc)) (not_lt.mpr h₁)
  have hhz : z < h := (hth _).mp h₂
  have hmid : |(l + h) / 2 - z| ≤ tol / 2 := by
    rw [abs_le]
    constructor <;> linarith
  calc |round2 ((l + h) / 2) - z|
      ≤ |round2 ((l + h) / 2) - (l + h) / 2| + |(l + h) / 2 - z| := abs_sub_le _ _ _
    _ ≤ 1/200 + tol / 2 := add_le_add (round2_err _) hmid

/-- Helper: once the scan has passed the unique upward zero of the P&L,
no further crossing is detected. -/
theorem findBEGo_tail_up (legs : List LegWithPrice) (minP maxP step tol z : ℚ)
    (hth : ∀ S, calculateTotalPnl legs S < 0 ↔ S < z) (hstep : 0 ≤ step) :
    ∀ (n k : ℕ) (prev : ℚ), 0 ≤ prev → z ≤ minP + ((k : ℚ) - 1) * step →
      findBEGo legs minP maxP step tol n k prev = [] := by
  intro n
  induction n with
  | zero => intro k prev _ _; rfl
  | succ n ih =>
      intro k prev hprev hz
      simp only [findBEGo]
      by_cases hg : minP + (k : ℚ) * step ≤ maxP
      · rw [if_pos hg]
        have hd : minP + (k : ℚ) * step = (minP + ((k : ℚ) - 1) * step) + step := by ring
        have hpk : z ≤ minP + (k : ℚ) * step := by rw [hd]; linarith
        have hcur : 0 ≤ calculateTotalPnl legs (minP + (k : ℚ) * step) :=
          le_of_not_lt fun hc => absurd ((hth _).mp hc) (not_lt.mpr hpk)
        have hcond : ¬ ((prev < 0 ∧ 0 ≤ calculateTotalPnl legs (minP + (k : ℚ) * step)) ∨
            (0 ≤ prev ∧ calculateTotalPnl legs (minP + (k : ℚ) * step) < 0)) := by
          push_neg
          exact ⟨fun hp => absurd hp (not_lt.mpr hprev), fun _ => hcur⟩
        rw [if_neg hcond]
        apply ih (k + 1) _ hcur
        have hc : ((k + 1 : ℕ) : ℚ) - 1 = (k : ℚ) := by push_cast; ring
        rw [hc]
        exact hpk
      · rw [if_neg hg]

/-- Helper: once the scan has passed the unique downward zero of the P&L,
no further crossing is detected. -/
theorem findBEGo_tail_down (legs : List LegWithPrice) (minP maxP step tol z : ℚ)
    (hth : ∀ S, calculateTotalPnl legs S < 0 ↔ z < S) (hstep : 0 ≤ step) :
    ∀ (n k : ℕ) (prev : ℚ), prev < 0 → z < minP + ((k : ℚ) - 1) * step →
      findBEGo legs minP maxP step tol n k prev = [] := by
  intro n
  induction n with
  | zero => intro k prev _ _; rfl
  | succ n ih =>
      intro k prev hprev hz
      simp only [findBEGo]
      by_cases hg : minP + (k : ℚ) * step ≤ maxP
      · rw [if_pos hg]
        have hd : minP + (k : ℚ) * step = (minP + ((k : ℚ) - 1) * step) + step := by ring
        have hpk : z < minP + (k : ℚ) * step := by rw [hd]; linarith
        have hcur : calculateTotalPnl legs (minP + (k : ℚ) * step) < 0 := (hth _).mpr hpk
        have hcond : ¬ ((prev < 0 ∧ 0 ≤ calculateTotalPnl legs (minP + (k : ℚ) * step)) ∨
            (0 ≤ prev ∧ calculateTotalPnl legs (minP + (k : ℚ) * step) < 0)) := by
          push_neg
          exact ⟨fun _ => hcur, fun hp => absurd hp (not_le.mpr hprev)⟩
        rw [if_neg hcond]
        apply ih (k + 1) _ hcur
        have hc : ((k + 1 : ℕ) : ℚ) - 1 = (k : ℚ) := by push_cast; ring
        rw [hc]
        exact hpk
      · rw [if_neg hg]

/-- Helper: when the upward zero lies above the whole scan domain, the scan
finds no crossing at all. -/
theorem findBEGo_none_up (legs : List LegWithPrice) (minP maxP step tol z : ℚ)
    (hth : ∀ S, calculateTotalPnl legs S < 0 ↔ S < z) (hM : maxP < z) :
    ∀ (n k : ℕ) (prev : ℚ), prev < 0 →
      findBEGo legs minP maxP step tol n k prev = [] := by
  intro n
  induction n with
  | zero => intro k prev _; rfl
  | succ n ih =>
      intro k prev hprev
      simp only [findBEGo]
      by_cases hg : minP + (k : ℚ) * step ≤ maxP
      · rw [if_pos hg]
        have hcur : calculateTotalPnl legs (minP + (k : ℚ) * step) < 0 :=
          (hth _).mpr (by linarith)
        have hcond : ¬ ((prev < 0 ∧ 0 ≤ calculateTotalPnl legs (minP + (k : ℚ) * step)) ∨
            (0 ≤ prev ∧ calculateTotalPnl legs (minP + (k : ℚ) * step) < 0)) := by
          push_neg
          exact ⟨fun _ => hcur, fun hp => absurd hp (not_le.mpr hprev)⟩
        rw [if_neg hcond]
        exact ih (k + 1) _ hcur
      · rw [if_neg hg]

/-- Helper: a P&L with a single upward zero inside the scan domain produces
exactly one detected crossing, whose refined value is within half a cent plus
half the tolerance of the zero. -/
theorem findBEGo_cross_up (legs : List LegWithPrice) (minP maxP step tol z : ℚ)
    (hth : ∀ S, calculateTotalPnl legs S < 0 ↔ S < z) (hstep : 0 < step)
    (htol : 0 < tol) (hM : maxP = minP + 1000 * step) (hzM : z ≤ maxP) :
    ∀ (n k : ℕ), k + n = 1001 → 1 ≤ k → minP + ((k : ℚ) - 1) * step < z →
      ∃ b, findBEGo legs minP maxP step tol n k
            (calculateTotalPnl legs (minP + ((k : ℚ) - 1) * step)) = [b]
        ∧ |b - z| ≤ 1/200 + tol / 2 := by
  intro n
  induction n with
  | zero =>
      intro k hk h1 hlt
      exfalso
      have hke : k = 1001 := by omega
      subst hke
      have : minP + ((1001 : ℚ) - 1) * step = maxP := by rw [hM]; ring
      rw [show ((1001 : ℕ) : ℚ) = (1001 : ℚ) by norm_num] at hlt
      rw [this] at hlt
      linarith
  | succ n ih =>
      intro k hk h1 hlt
      have hk1000 : k ≤ 1000 := by omega
      have hkq : (k : ℚ) ≤ 1000 := by exact_mod_cast hk1000
      have hguard : minP + (k : ℚ) * step ≤ maxP := by
        rw [hM]
        have := mul_le_mul_of_nonneg_right hkq (le_of_lt hstep)
        linarith
      have hprev : calculateTotalPnl legs (minP + ((k : ℚ) - 1) * step) < 0 := (hth _).mpr hlt
      simp only [findBEGo]
      rw [if_pos hguard]
      have hc : ((k + 1 : ℕ) : ℚ) - 1 = (k : ℚ) := by push_cast; ring
      by_cases hcross : z ≤ minP + (k : ℚ) * step
      · have hcur : 0 ≤ calculateTotalPnl legs (minP + (k : ℚ) * step) :=
          le_of_not_lt fun hcc => absurd ((hth _).mp hcc) (not_lt.mpr hcross)
        rw [if_pos (Or.inl ⟨hprev, hcur⟩)]
        have htail : findBEGo legs minP maxP step tol n (k + 1)
            (calculateTotalPnl legs (minP + (k : ℚ) * step)) = [] := by
          apply findBEGo_tail_up legs minP maxP step tol z hth (le_of_lt hstep) n (k + 1)
            _ hcur
          rw [hc]
          exact hcross
        have hlow : minP + (k : ℚ) * step - step = minP + ((k : ℚ) - 1) * step := by ring
        rw [htail, hlow]
        refine ⟨_, rfl, ?_⟩
        exact bisect_up_value legs _ tol _ _ z htol hprev hth hprev hcur (by linarith)
      · have hlt2 : minP + (k : ℚ) * step < z := not_le.mp hcross
        have hcur : calculateTotalPnl legs (minP + (k : ℚ) * step) < 0 := (hth _).mpr hlt2
        have hcond : ¬ ((calculateTotalPnl legs (minP + ((k : ℚ) - 1) * step) < 0 ∧
              0 ≤ calculateTotalPnl legs (minP + (k : ℚ) * step)) ∨
            (0 ≤ calculateTotalPnl legs (minP + ((k : ℚ) - 1) * step) ∧
              calculateTotalPnl legs (minP + (k : ℚ) * step) < 0)) := by
          push_neg
          exact ⟨fun _ => hcur, fun hp => absurd hp (not_le.mpr hprev)⟩
        rw [if_neg hcond]
        obtain ⟨b, hb, hbv⟩ := ih (k + 1) (by omega) (by omega) (by rw [hc]; exact hlt2)
        rw [hc] at hb
        exact ⟨b, hb, hbv⟩

/-- Helper: a P&L with a single downward zero inside the scan domain produces
exactly one detected crossing, whose refined value is within half a cent plus
half the tolerance of the zero. -/
theorem findBEGo_cross_down (legs : List LegWithPrice) (minP maxP step tol z : ℚ)
    (hth : ∀ S, calculateTotalPnl legs S < 0 ↔ z < S) (hstep : 0 < step)
    (htol : 0 < tol) (hM : maxP = minP + 1000 * step) (hzM : z < maxP) :
    ∀ (n k : ℕ), k + n = 1001 → 1 ≤ k → minP + ((k : ℚ) - 1) * step ≤ z →
      ∃ b, findBEGo legs minP maxP step tol n k
            (calculateTotalPnl legs (minP + ((k : ℚ) - 1) * step)) = [b]
        ∧ |b - z| ≤ 1/200 + tol / 2 := by
  intro n
  induction n with
  | zero =>
      intro k hk h1 hle
      exfalso
      have hke : k = 1001 := by omega
      subst hke
      have : minP + ((1001 : ℚ) - 1) * step = maxP := by rw [hM]; ring
      rw [show ((1001 : ℕ) : ℚ) = (1001 : ℚ) by norm_num] at hle
      rw [this] at hle
      linarith
  | succ n ih =>
      intro k hk h1 hle
      have hk1000 : k ≤ 1000 := by omega
      have hkq : (k : ℚ) ≤ 1000 := by exact_mod_cast hk1000
      have hguard : minP + (k : ℚ) * step ≤ maxP := by
        rw [hM]
        have := mul_le_mul_of_nonneg_right hkq (le_of_lt hstep)
        linarith
      have hprev : 0 ≤ calculateTotalPnl legs (minP + ((k : ℚ) - 1) * step) :=
        le_of_not_lt fun hcc => absurd ((hth _).mp hcc) (not_lt.mpr hle)
      simp only [findBEGo]
      rw [if_pos hguard]
      have hc : ((k + 1 : ℕ) : ℚ) - 1 = (k : ℚ) := by push_cast; ring
      by_cases hcross : z < minP + (k : ℚ) * step
      · have hcur : calculateTotalPnl legs (minP + (k : ℚ) * step) < 0 := (hth _).mpr hcross
        rw [if_pos (Or.inr ⟨hprev, hcur⟩)]
        have htail : findBEGo legs minP maxP step tol n (k + 1)
            (calculateTotalPnl legs (minP + (k : ℚ) * step)) = [] := by
          apply findBEGo_tail_down legs minP maxP step tol z hth (le_of_lt hstep) n (k + 1)
            _ hcur
          rw [hc]
          exact hcross
        have hlow : minP + (k : ℚ) * step - step = minP + ((k : ℚ) - 1) * step := by ring
        rw [htail, hlow]
        refine ⟨_, rfl, ?_⟩
        exact bisect_down_value legs _ tol _ _ z htol hprev hth hprev hcur (by linarith)
      · have hle2 : minP + (k : ℚ) * step ≤ z := not_lt.mp hcross
        have hcur : 0 ≤ calculateTotalPnl legs (minP + (k : ℚ) * step) :=
          le_of_not_lt fun hcc => absurd ((hth _).mp hcc) (not_lt.mpr hle2)
        have hcond : ¬ ((calculateTotalPnl legs (minP + ((k : ℚ) - 1) * step) < 0 ∧
              0 ≤ calculateTotalPnl legs (minP + (k : ℚ) * step)) ∨
            (0 ≤ calculateTotalPnl legs (minP + ((k : ℚ) - 1) * step) ∧
              calculateTotalPnl legs (minP + (k : ℚ) * step) < 0)) := by
          push_neg
          exact ⟨fun hp => absurd hp (not_lt.mpr hprev), fun _ => hcur⟩
        rw [if_neg hcond]
        obtain ⟨b, hb, hbv⟩ := ih (k + 1) (by omega) (by omega) (by rw [hc]; exact hle2)
        rw [hc] at hb
        exact ⟨b, hb, hbv⟩

/-- Helper: `findBreakevens` with the default tolerance finds exactly one
breakeven, within one cent of the upward zero, when that zero lies inside the
scan domain and the P&L starts negative. -/
theorem findBreakevens_cross_up (legs : List LegWithPrice) (minP maxP z : ℚ)
    (hth : ∀ S, calculateTotalPnl legs S < 0 ↔ S < z)
    (hlt : minP < maxP) (hm : minP < z) (hzM : z ≤ maxP) :
    ∃ b, findBreakevens legs minP maxP (1/100) = [b] ∧ |b - z| ≤ 1/100 := by
  have hstep : 0 < (maxP - minP) / 1000 := div_pos (by linarith) (by norm_num)
  have hM : maxP = minP + 1000 * ((maxP - minP) / 1000) := by ring
  obtain ⟨b, hb, hbv⟩ := findBEGo_cross_up legs minP maxP ((maxP - minP) / 1000) (1/100) z
    hth hstep (by norm_num) hM hzM 1000 1 (by omega) (by omega)
    (by
      rw [show ((1 : ℕ) : ℚ) - 1 = 0 by norm_num]
      simpa using hm)
  rw [show minP + (((1 : ℕ) : ℚ) - 1) * ((maxP - minP) / 1000) = minP by push_cast; ring] at hb
  refine ⟨b, hb, ?_⟩
  have : (1 : ℚ)/200 + (1/100) / 2 = 1/100 := by norm_num
  linarith [hbv]

/-- Helper: `findBreakevens` with the default tolerance finds exactly one
breakeven, within one cent of the downward zero, when that zero lies inside
the scan domain and the P&L starts non-negative. -/
theorem findBreakevens_cross_down (legs : List LegWithPrice) (minP maxP z : ℚ)
    (hth : ∀ S, calculateTotalPnl legs S < 0 ↔ z < S)
    (hlt : minP < maxP) (hm : minP ≤ z) (hzM : z < maxP) :
    ∃ b, findBreakevens legs minP maxP (1/100) = [b] ∧ |b - z| ≤ 1/100 := by
  have hstep : 0 < (maxP - minP) / 1000 := div_pos (by linarith) (by norm_num)
  have hM : maxP = minP + 1000 * ((maxP - minP) / 1000) := by ring
  obtain ⟨b, hb, hbv⟩ := findBEGo_cross_down legs minP maxP ((maxP - minP) / 1000) (1/100) z
    hth hstep (by norm_num) hM hzM 1000 1 (by omega) (by omega)
    (by
      rw [show ((1 : ℕ) : ℚ) - 1 = 0 by norm_num]
      simpa using hm)
  rw [show minP + (((1 : ℕ) : ℚ) - 1) * ((maxP - minP) / 1000) = minP by push_cast; ring] at hb
  refine ⟨b, hb, ?_⟩
  have : (1 : ℚ)/200 + (1/100) / 2 = 1/100 := by norm_num
  linarith [hbv]

/-- Helper: `findBreakevens` reports nothing when the P&L stays negative over
the whole domain (its upward zero lies above `maxPrice`). -/
theorem findBreakevens_none_up (legs : List LegWithPrice) (minP maxP z : ℚ)
    (hth : ∀ S, calculateTotalPnl legs S < 0 ↔ S < z) (hM : maxP < z)
    (hneg : calculateTotalPnl legs minP < 0) :
    findBreakevens legs minP maxP (1/100) = [] :=
  findBEGo_none_up legs minP maxP ((maxP - minP) / 1000) (1/100) z hth hM 1000 1 _ hneg

/-- Helper: total P&L of a single bought call with amount 1. -/
theorem totalPnl_single_call (nm : String) (K : ℕ) (p S : ℚ) :
    calculateTotalPnl [⟨nm, Side.buy, 1, K, OptType.call, p⟩] S
      = max 0 (S - (K : ℚ)) - p := by
  simp [calculateTotalPnl, calculateLegPnl]

/-- Helper: total P&L of a single bought put with amount 1. -/
theorem totalPnl_single_put (nm : String) (K : ℕ) (p S : ℚ) :
    calculateTotalPnl [⟨nm, Side.buy, 1, K, OptType.put, p⟩] S
      = max 0 ((K : ℚ) - S) - p := by
  simp [calculateTotalPnl, calculateLegPnl]

/-- Helper: the P&L of a long call with positive premium is negative exactly
below `strike + premium`. -/
theorem totalPnl_single_call_neg_iff (nm : String) (K : ℕ) (p : ℚ) (hp : 0 < p) :
    ∀ S, calculateTotalPnl [⟨nm, Side.buy, 1, K, OptType.call, p⟩] S < 0 ↔
      S < (K : ℚ) + p := by
  intro S
  rw [totalPnl_single_call]
  rcases le_total S (K : ℚ) with h | h
  · rw [max_eq_left (by linarith)]
    constructor
    · intro _; linarith
    · intro _; linarith
  · rw [max_eq_right (by linarith)]
    constructor <;> intro <;> linarith

/-- Helper: the P&L of a long put with positive premium is negative exactly
above `strike - premium`. -/
theorem totalPnl_single_put_neg_iff (nm : String) (K : ℕ) (p : ℚ) (hp : 0 < p) :
    ∀ S, calculateTotalPnl [⟨nm, Side.buy, 1, K, OptType.put, p⟩] S < 0 ↔
      (K : ℚ) - p < S := by
  intro S
  rw [totalPnl_single_put]
  rcases le_total S (K : ℚ) with h | h
  · rw [max_eq_right (by linarith)]
    constructor <;> intro <;> linarith
  · rw [max_eq_left (by linarith)]
    constructor
    · intro _; linarith
    · intro _; linarith

/-- Helper: the `breakevens` field of `calculatePayoff` comes from
`findBreakevens` over the sampling domain whenever some leg parses. -/
theorem calculatePayoff_breakevens (ts : TradeSpec) (premiums : List (String × ℚ))
    (cp : ℚ) (h : parsedLegsOf ts premiums ≠ []) :
    (calculatePayoff ts premiums cp).breakevens =
      findBreakevens (parsedLegsOf ts premiums) (minPriceOf (parsedLegsOf ts premiums) cp)
        (maxPriceOf (parsedLegsOf ts premiums) cp) (1/100) := by
  simp only [calculatePayoff]
  rw [if_neg (by simpa using h)]

/-- Helper: parsing a one-leg trade whose single leg parses. -/
theorem parsedLegsOf_single (ts : TradeSpec) (premiums : List (String × ℚ))
    (leg : Leg) (K : ℕ) (t : OptType) (p : ℚ)
    (hlegs : ts.legs = [leg])
    (hname : parseInstrumentName leg.instrument_name = some (K, t))
    (hprem : (premiums.lookup leg.instrument_name).getD 0 = p) :
    parsedLegsOf ts premiums = [⟨leg.instrument_name, leg.side, leg.amount, K, t, p⟩] := by
  simp [parsedLegsOf, hlegs, parseLeg, hname, hprem]

/-- Helper: the sampling domain of a single parsed leg with strike `K` is
`[max 0 (K - cp/10), K + cp/10]`. -/
theorem payoffDomain_single (lw : LegWithPrice) (cp : ℚ) :
    minPriceOf [lw] cp = max 0 ((lw.strike : ℚ) - cp * (2/10) * (1/2)) ∧
    maxPriceOf [lw] cp = (lw.strike : ℚ) + cp * (2/10) * (1/2) := by
  constructor
  · simp [minPriceOf, priceRangeOf, strikesOf, listMinOf, listMaxOf]
  · simp [maxPriceOf, priceRangeOf, strikesOf, listMinOf, listMaxOf]

/-- Helper: a valid single-leg long call with positive premium at most a tenth
of the reference price has exactly one breakeven, within a cent of
`strike + premium`. -/
theorem payoff_single_long_call (ts : TradeSpec) (premiums : List (String × ℚ))
    (cp p : ℚ) (leg : Leg) (K : ℕ)
    (hlegs : ts.legs = [leg]) (hside : leg.side = Side.buy) (hamt : leg.amount = 1)
    (hname : parseInstrumentName leg.instrument_name = some (K, OptType.call))
    (hprem : (premiums.lookup leg.instrument_name).getD 0 = p)
    (hcp : 0 < cp) (hp : 0 < p) (hple : p ≤ cp / 10) :
    ∃ b, (calculatePayoff ts premiums cp).breakevens = [b]
      ∧ |b - ((K : ℚ) + p)| ≤ 1/100 := by
  have hparse : parsedLegsOf ts premiums =
      [⟨leg.instrument_name, Side.buy, 1, K, OptType.call, p⟩] := by
    rw [parsedLegsOf_single ts premiums leg K OptType.call p hlegs hname hprem, hside, hamt]
  have hne : parsedLegsOf ts premiums ≠ [] := by rw [hparse]; simp
  rw [calculatePayoff_breakevens ts premiums cp hne, hparse]
  obtain ⟨hmin, hmax⟩ :=
    payoffDomain_single ⟨leg.instrument_name, Side.buy, 1, K, OptType.call, p⟩ cp
  have h10 : cp * (2/10) * (1/2) = cp / 10 := by ring
  rw [h10] at hmin hmax
  have hminK : minPriceOf [⟨leg.instrument_name, Side.buy, 1, K, OptType.call, p⟩] cp
      ≤ (K : ℚ) := by
    rw [hmin]
    exact max_le (Nat.cast_nonneg K) (by linarith)
  apply findBreakevens_cross_up _ _ _ ((K : ℚ) + p)
    (totalPnl_single_call_neg_iff leg.instrument_name K p hp)
  · rw [hmax]; linarith
  · linarith
  · rw [hmax]; linarith

/-- Helper: a valid single-leg long put with positive premium at most the
strike and at most a tenth of the reference price has exactly one breakeven,
within a cent of `strike - premium`. -/
theorem payoff_single_long_put (ts : TradeSpec) (premiums : List (String × ℚ))
    (cp p : ℚ) (leg : Leg) (K : ℕ)
    (hlegs : ts.legs = [leg]) (hside : leg.side = Side.buy) (hamt : leg.amount = 1)
    (hname : parseInstrumentName leg.instrument_name = some (K, OptType.put))
    (hprem : (premiums.lookup leg.instrument_name).getD 0 = p)
    (hcp : 0 < cp) (hp : 0 < p) (hple : p ≤ cp / 10) (hpK : p ≤ (K : ℚ)) :
    ∃ b, (calculatePayoff ts premiums cp).breakevens = [b]
      ∧ |b - ((K : ℚ) - p)| ≤ 1/100 := by
  have hparse : parsedLegsOf ts premiums =
      [⟨leg.instrument_name, Side.buy, 1, K, OptType.put, p⟩] := by
    rw [parsedLegsOf_single ts premiums leg K OptType.put p hlegs hname hprem, hside, hamt]
  have hne : parsedLegsOf ts premiums ≠ [] := by rw [hparse]; simp
  rw [calculatePayoff_breakevens ts premiums cp hne, hparse]
  obtain ⟨hmin, hmax⟩ :=
    payoffDomain_single ⟨leg.instrument_name, Side.buy, 1, K, OptType.put, p⟩ cp
  have h10 : cp * (2/10) * (1/2) = cp / 10 := by ring
  rw [h10] at hmin hmax
  have hminz : minPriceOf [⟨leg.instrument_name, Side.buy, 1, K, OptType.put, p⟩] cp
      ≤ (K : ℚ) - p := by
    rw [hmin]
    exact max_le (by linarith) (by linarith)
  apply findBreakevens_cross_down _ _ _ ((K : ℚ) - p)
    (totalPnl_single_put_neg_iff leg.instrument_name K p hp)
  · rw [hmax]
    have : (0 : ℚ) ≤ (K : ℚ) := Nat.cast_nonneg K
    calc minPriceOf [⟨leg.instrument_name, Side.buy, 1, K, OptType.put, p⟩] cp
        ≤ (K : ℚ) - p := hminz
      _ < (K : ℚ) + cp / 10 := by linarith
  · exact hminz
  · rw [hmax]; linarith

/-- Claim C3 (counterexample): for the single-leg long call with strike 100,
premium 20 and reference price 100 the breakeven 120 lies outside the scanned
domain `[90, 110]`, so the analysis reports no breakeven at all instead of
exactly one near `strike + premium`. -/
theorem calculatePayoff_call_breakeven_counterexample :
    (calculatePayoff
      ⟨"ETH", "Long Call", "20250110", [⟨"ETH-20250110-100-C", Side.buy, 1⟩], 0, 0, "x"⟩
      [("ETH-20250110-100-C", 20)] 100).breakevens = [] := by
  have hname : parseInstrumentName "ETH-20250110-100-C" = some (100, OptType.call) := by
    with_unfolding_all rfl
  have hprem : (([("ETH-20250110-100-C", (20 : ℚ))].lookup "ETH-20250110-100-C").getD 0)
      = (20 : ℚ) := by with_unfolding_all rfl
  have hparse : parsedLegsOf
      ⟨"ETH", "Long Call", "20250110", [⟨"ETH-20250110-100-C", Side.buy, 1⟩], 0, 0, "x"⟩
      [("ETH-20250110-100-C", 20)] =
      [⟨"ETH-20250110-100-C", Side.buy, 1, 100, OptType.call, 20⟩] := by
    exact parsedLegsOf_single _ _ ⟨"ETH-20250110-100-C", Side.buy, 1⟩ 100 OptType.call 20
      rfl hname hprem
  have hne : parsedLegsOf
      ⟨"ETH", "Long Call", "20250110", [⟨"ETH-20250110-100-C", Side.buy, 1⟩], 0, 0, "x"⟩
      [("ETH-20250110-100-C", 20)] ≠ [] := by rw [hparse]; simp
  rw [calculatePayoff_breakevens _ _ _ hne, hparse]
  have hminv : minPriceOf [⟨"ETH-20250110-100-C", Side.buy, 1, 100, OptType.call, 20⟩] 100
      = 90 := by with_unfolding_all rfl
  have hmaxv : maxPriceOf [⟨"ETH-20250110-100-C", Side.buy, 1, 100, OptType.call, 20⟩] 100
      = 110 := by with_unfolding_all rfl
  apply findBreakevens_none_up _ _ _ ((100 : ℚ) + 20)
    (totalPnl_single_call_neg_iff "ETH-20250110-100-C" 100 20 (by norm_num))
  · rw [hmaxv]
    norm_num
  · rw [hminv, totalPnl_single_call]
    rw [show ((100 : ℕ) : ℚ) = 100 by norm_num, max_eq_left (by norm_num : (90:ℚ) - 100 ≤ 0)]
    norm_num

/-- Claim C3 (amended): for a valid single-leg long call (amount 1) whose
positive premium is at most a tenth of the reference price — so that the
breakeven lies inside the sampled domain — the analysis contains exactly one
breakeven, equal to `strike + premium` within 0.01; for a single-leg long put
the same holds for `strike - premium` when the premium is additionally at
most the strike. -/
theorem calculatePayoff_single_leg_breakevens (ts : TradeSpec)
    (premiums : List (String × ℚ)) (cp p : ℚ) (leg : Leg) (K : ℕ)
    (hlegs : ts.legs = [leg]) (hside : leg.side = Side.buy) (hamt : leg.amount = 1)
    (hprem : (premiums.lookup leg.instrument_name).getD 0 = p)
    (hcp : 0 < cp) (hp : 0 < p) :
    (parseInstrumentName leg.instrument_name = some (K, OptType.call) → p ≤ cp / 10 →
      ∃ b, (calculatePayoff ts premiums cp).breakevens = [b]
        ∧ |b - ((K : ℚ) + p)| ≤ 1/100)
    ∧ (parseInstrumentName leg.instrument_name = some (K, OptType.put) → p ≤ cp / 10 →
        p ≤ (K : ℚ) →
      ∃ b, (calculatePayoff ts premiums cp).breakevens = [b]
        ∧ |b - ((K : ℚ) - p)| ≤ 1/100) :=
  ⟨fun hname hple =>
      payoff_single_long_call ts premiums cp p leg K hlegs hside hamt hname hprem hcp hp hple,
    fun hname hple hpK =>
      payoff_single_long_put ts premiums cp p leg K hlegs hside hamt hname hprem hcp hp
        hple hpK⟩

/-- Witness for `calculatePayoff_single_leg_breakevens`: a concrete long call,
strike 100, premium 5, reference price 100. -/
theorem calculatePayoff_single_leg_breakevens_witness :
    ∃ b, (calculatePayoff
        ⟨"ETH", "Long Call", "20250110", [⟨"ETH-20250110-100-C", Side.buy, 1⟩], 0, 0, "x"⟩
        [("ETH-20250110-100-C", 5)] 100).breakevens = [b]
      ∧ |b - ((100 : ℚ) + 5)| ≤ 1/100 := by
  have h := (calculatePayoff_single_leg_breakevens
    ⟨"ETH", "Long Call", "20250110", [⟨"ETH-20250110-100-C", Side.buy, 1⟩], 0, 0, "x"⟩
    [("ETH-20250110-100-C", 5)] 100 5 ⟨"ETH-20250110-100-C", Side.buy, 1⟩ 100
    rfl rfl rfl (by with_unfolding_all rfl) (by norm_num) (by norm_num)).1
    (by with_unfolding_all rfl) (by norm_num)
  obtain ⟨b, hb, hbv⟩ := h
  exact ⟨b, hb, by exact_mod_cast hbv⟩

/-- Claim C4 (counterexample): a straddle (bought call and bought put, no
sold legs) contains a bought call and no sold call, yet its reported maxGain
is not unbounded: the long-put branch overwrites the `null` with
`max(0, P&L at price 0)`. -/
theorem calculatePayoff_maxGain_counterexample :
    hasLongCallB (parsedLegsOf
        ⟨"ETH", "Straddle", "20250110",
          [⟨"ETH-20250110-100-C", Side.buy, 1⟩, ⟨"ETH-20250110-100-P", Side.buy, 1⟩],
          0, 0, "x"⟩
        [("ETH-20250110-100-C", 5), ("ETH-20250110-100-P", 5)]) = true
    ∧ hasShortCallB (parsedLegsOf
        ⟨"ETH", "Straddle", "20250110",
          [⟨"ETH-20250110-100-C", Side.buy, 1⟩, ⟨"ETH-20250110-100-P", Side.buy, 1⟩],
          0, 0, "x"⟩
        [("ETH-20250110-100-C", 5), ("ETH-20250110-100-P", 5)]) = false
    ∧ (calculatePayoff
        ⟨"ETH", "Straddle", "20250110",
          [⟨"ETH-20250110-100-C", Side.buy, 1⟩, ⟨"ETH-20250110-100-P", Side.buy, 1⟩],
          0, 0, "x"⟩
        [("ETH-20250110-100-C", 5), ("ETH-20250110-100-P", 5)] 100).maxGain = some 90 :=
  ⟨by with_unfolding_all rfl, by with_unfolding_all rfl, by with_unfolding_all rfl⟩

/-- Claim C4 (amended): a bought call with no sold call makes the reported
maxGain unbounded (`none`) provided the leg set does not also contain a
bought put without a sold put; a bought put with no sold put makes the
reported maxGain the rounded maximum of the sampled max gain and the P&L at
price 0 provided no bought-call-without-sold-call fired first; and when both
patterns are present the reported maxGain is the rounded maximum of 0 and the
P&L at price 0. -/
theorem calculatePayoff_maxGain_spec (ts : TradeSpec) (premiums : List (String × ℚ))
    (cp : ℚ) :
    (hasLongCallB (parsedLegsOf ts premiums) = true →
      hasShortCallB (parsedLegsOf ts premiums) = false →
      (hasLongPutB (parsedLegsOf ts premiums) = false ∨
        hasShortPutB (parsedLegsOf ts premiums) = true) →
      (calculatePayoff ts premiums cp).maxGain = none)
    ∧ (hasLongPutB (parsedLegsOf ts premiums) = true →
        hasShortPutB (parsedLegsOf ts premiums) = false →
        (hasLongCallB (parsedLegsOf ts premiums) = false ∨
          hasShortCallB (parsedLegsOf ts premiums) = true) →
        (calculatePayoff ts premiums cp).maxGain =
          some (round2 (max (listMaxOf (samplePnlsOf (parsedLegsOf ts premiums) cp))
            (calculateTotalPnl (parsedLegsOf ts premiums) 0))))
    ∧ (hasLongCallB (parsedLegsOf ts premiums) = true →
        hasShortCallB (parsedLegsOf ts premiums) = false →
        hasLongPutB (parsedLegsOf ts premiums) = true →
        hasShortPutB (parsedLegsOf ts premiums) = false →
        (calculatePayoff ts premiums cp).maxGain =
          some (round2 (max 0 (calculateTotalPnl (parsedLegsOf ts premiums) 0)))) := by
  refine ⟨?_, ?_, ?_⟩
  · intro hlc hsc hexc
    obtain ⟨x, hx, -⟩ := List.any_eq_true.mp hlc
    have hne : parsedLegsOf ts premiums ≠ [] := List.ne_nil_of_mem hx
    simp only [calculatePayoff]
    rw [if_neg (by simpa using hne)]
    rcases hexc with h | h <;> simp [hlc, hsc, h]
  · intro hlp hsp hexc
    obtain ⟨x, hx, -⟩ := List.any_eq_true.mp hlp
    have hne : parsedLegsOf ts premiums ≠ [] := List.ne_nil_of_mem hx
    simp only [calculatePayoff]
    rw [if_neg (by simpa using hne)]
    rcases hexc with h | h <;> simp [hlp, hsp, h]
  · intro hlc hsc hlp hsp
    obtain ⟨x, hx, -⟩ := List.any_eq_true.mp hlc
    have hne : parsedLegsOf ts premiums ≠ [] := List.ne_nil_of_mem hx
    simp only [calculatePayoff]
    rw [if_neg (by simpa using hne)]
    simp [hlc, hsc, hlp, hsp]

/-- Witness for `calculatePayoff_maxGain_spec`: a single long call has
unbounded gain; a single long put has the long-put maxGain formula. -/
theorem calculatePayoff_maxGain_spec_witness :
    (calculatePayoff
      ⟨"ETH", "Long Call", "20250110", [⟨"ETH-20250110-100-C", Side.buy, 1⟩], 0, 0, "x"⟩
      [("ETH-20250110-100-C", 5)] 100).maxGain = none
    ∧ (calculatePayoff
        ⟨"ETH", "Long Put", "20250110", [⟨"ETH-20250110-100-P", Side.buy, 1⟩], 0, 0, "x"⟩
        [("ETH-20250110-100-P", 5)] 100).maxGain =
      some (round2 (max (listMaxOf (samplePnlsOf (parsedLegsOf
          ⟨"ETH", "Long Put", "20250110", [⟨"ETH-20250110-100-P", Side.buy, 1⟩], 0, 0, "x"⟩
          [("ETH-20250110-100-P", 5)]) 100))
        (calculateTotalPnl (parsedLegsOf
          ⟨"ETH", "Long Put", "20250110", [⟨"ETH-20250110-100-P", Side.buy, 1⟩], 0, 0, "x"⟩
          [("ETH-20250110-100-P", 5)]) 0))) :=
  ⟨(calculatePayoff_maxGain_spec
      ⟨"ETH", "Long Call", "20250110", [⟨"ETH-20250110-100-C", Side.buy, 1⟩], 0, 0, "x"⟩
      [("ETH-20250110-100-C", 5)] 100).1
      (by with_unfolding_all rfl) (by with_unfolding_all rfl)
      (Or.inl (by with_unfolding_all rfl)),
    (calculatePayoff_maxGain_spec
      ⟨"ETH", "Long Put", "20250110", [⟨"ETH-20250110-100-P", Side.buy, 1⟩], 0, 0, "x"⟩
      [("ETH-20250110-100-P", 5)] 100).2.1
      (by with_unfolding_all rfl) (by with_unfolding_all rfl)
      (Or.inl (by with_unfolding_all rfl))⟩

/-- Helper: insertion is a permutation of consing. -/
theorem liqInsert_perm (x : LiqResult) (l : List LiqResult) :
    (liqInsert x l).Perm (x :: l) := by
  induction l with
  | nil => rfl
  | cons y ys ih =>
      simp only [liqInsert]
      by_cases h : liqSortKey y < liqSortKey x
      · rw [if_pos h]
        exact (List.Perm.cons y ih).trans (List.Perm.swap x y ys)
      · rw [if_neg h]

/-- Helper: the sort is a permutation of its input. -/
theorem liqSort_perm (l : List LiqResult) : (liqSort l).Perm l := by
  induction l with
  | nil => rfl
  | cons x xs ih =>
      exact (liqInsert_perm x (liqSort xs)).trans (List.Perm.cons x ih)

/-- Helper: insertion preserves sortedness by the spread key. -/
theorem liqInsert_sorted (x : LiqResult) (l : List LiqResult)
    (h : l.Pairwise fun a b => liqSortKey a ≤ liqSortKey b) :
    (liqInsert x l).Pairwise fun a b => liqSortKey a ≤ liqSortKey b := by
  induction l with
  | nil => simp [liqInsert]
  | cons y ys ih =>
      rw [List.pairwise_cons] at h
      simp only [liqInsert]
      by_cases hk : liqSortKey y < liqSortKey x
      · rw [if_pos hk]
        rw [List.pairwise_cons]
        refine ⟨?_, ih h.2⟩
        intro z hz
        rcases List.mem_cons.mp ((liqInsert_perm x ys).mem_iff.mp hz) with hz | hz
        · subst hz
          exact le_of_lt hk
        · exact h.1 z hz
      · rw [if_neg hk]
        rw [List.pairwise_cons]
        refine ⟨?_, List.pairwise_cons.mpr h⟩
        intro z hz
        rcases List.mem_cons.mp hz with hz | hz
        · subst hz
          exact le_of_not_lt hk
        · exact le_trans (le_of_not_lt hk) (h.1 z hz)

/-- Helper: the sorted list is pairwise ascending in the spread key. -/
theorem liqSort_sorted (l : List LiqResult) :
    (liqSort l).Pairwise fun a b => liqSortKey a ≤ liqSortKey b := by
  induction l with
  | nil => simp [liqSort]
  | cons x xs ih => exact liqInsert_sorted x (liqSort xs) ih

/-- Helper: every member of the filtered list has both quotes, carries the
computed spread, and has its spread within the maximum when defined. -/
theorem liqBuild_mem (maxSpread : ℚ) (cands : List LiqCandidate) (r : LiqResult)
    (hr : r ∈ liqBuild maxSpread cands) :
    r.pricing.bid.isSome = true ∧ r.pricing.ask.isSome = true ∧
    r.pricing.spread_percent = liqSpreadPercent r.pricing.bid r.pricing.ask ∧
    (∀ sp, r.pricing.spread_percent = some sp → sp ≤ maxSpread) := by
  rw [liqBuild, List.mem_filterMap] at hr
  obtain ⟨c, -, hc⟩ := hr
  cases ht : c.ticker with
  | none =>
      rw [ht] at hc
      dsimp only at hc
      exact absurd hc (by simp)
  | some t =>
      rw [ht] at hc
      dsimp only at hc
      by_cases hk : liqKeep maxSpread t = true
      · rw [if_pos hk] at hc
        have hrt : r = ⟨c.instrument_name, ⟨t.bid, t.ask, t.mark,
            liqSpreadPercent t.bid t.ask⟩⟩ := (Option.some_inj.mp hc).symm
        subst hrt
        rw [liqKeep, Bool.and_eq_true, Bool.and_eq_true] at hk
        refine ⟨hk.1.1, hk.1.2, rfl, ?_⟩
        intro sp hsp
        dsimp only at hsp
        rw [hsp] at hk
        have := hk.2
        simpa using this
      · rw [if_neg hk] at hc
        exact absurd hc (by simp)

/-- Claim C6 (counterexample): a candidate whose bid string parses to zero
(for example "0.0", which is not the literal "0") has no live bid, and its
spread under the claimed formula is `(2-0)/1*100 = 200`, far above the
maximum 10 — yet the filter keeps it, with an undefined spread, because the
spread is only computed when the bid is positive. -/
theorem executeFindLiquidOptions_counterexample :
    executeFindLiquidOptionsCore (some 10) [⟨"X", some ⟨some 0, some 2, 1⟩⟩]
      = [⟨"X", ⟨some 0, some 2, 1, none⟩⟩] := by
  with_unfolding_all rfl

/-- Claim C6 (amended): the liquidity core excludes every instrument lacking a
bid or ask price field (a missing string or the literal "0"); for survivors it
records the spread `(ask-bid)/mid*100` with `mid = (bid+ask)/2`, computed only
when the bid and the mid price are positive and undefined otherwise; every
survivor with a defined spread is within the caller-supplied maximum
(default 10, also used when the parameter is 0); the survivors are returned
sorted by ascending spread with undefined spreads ordered as 100; and the
result is exactly the filtered candidates re-ordered.  In particular, of two
candidates with spreads 4% and 12% under maximum 10 only the 4% one is
returned. -/
theorem executeFindLiquidOptions_spec (maxSpreadParam : Option ℚ)
    (cands : List LiqCandidate) :
    (∀ r ∈ executeFindLiquidOptionsCore maxSpreadParam cands,
      r.pricing.bid.isSome = true ∧ r.pricing.ask.isSome = true)
    ∧ (∀ r ∈ executeFindLiquidOptionsCore maxSpreadParam cands, ∀ b a,
        r.pricing.bid = some b → r.pricing.ask = some a → 0 < b → 0 < (b + a) / 2 →
        r.pricing.spread_percent = some ((a - b) / ((b + a) / 2) * 100))
    ∧ (∀ r ∈ executeFindLiquidOptionsCore maxSpreadParam cands, ∀ sp,
        r.pricing.spread_percent = some sp → sp ≤ resolveMaxSpread maxSpreadParam)
    ∧ (executeFindLiquidOptionsCore maxSpreadParam cands).Pairwise
        (fun a b => liqSortKey a ≤ liqSortKey b)
    ∧ (executeFindLiquidOptionsCore maxSpreadParam cands).Perm
        (liqBuild (resolveMaxSpread maxSpreadParam) cands)
    ∧ executeFindLiquidOptionsCore (some 10)
        [⟨"A", some ⟨some (98/10), some (102/10), 10⟩⟩,
          ⟨"B", some ⟨some (94/10), some (106/10), 10⟩⟩]
      = [⟨"A", ⟨some (98/10), some (102/10), 10, some 4⟩⟩] := by
  have hperm : (executeFindLiquidOptionsCore maxSpreadParam cands).Perm
      (liqBuild (resolveMaxSpread maxSpreadParam) cands) :=
    liqSort_perm _
  have hmem : ∀ r ∈ executeFindLiquidOptionsCore maxSpreadParam cands,
      r ∈ liqBuild (resolveMaxSpread maxSpreadParam) cands :=
    fun r hr => hperm.mem_iff.mp hr
  refine ⟨?_, ?_, ?_, liqSort_sorted _, hperm, ?_⟩
  · intro r hr
    obtain ⟨h₁, h₂, -, -⟩ := liqBuild_mem _ _ r (hmem r hr)
    exact ⟨h₁, h₂⟩
  · intro r hr b a hb ha hbpos hmid
    obtain ⟨-, -, h₃, -⟩ := liqBuild_mem _ _ r (hmem r hr)
    rw [h₃, hb, ha, liqSpreadPercent]
    rw [if_pos hbpos, if_pos hmid]
  · intro r hr sp hsp
    obtain ⟨-, -, -, h₄⟩ := liqBuild_mem _ _ r (hmem r hr)
    exact h₄ sp hsp
  · with_unfolding_all rfl

/-- Witness for `executeFindLiquidOptions_spec` at the two-candidate
scenario: the surviving 4% candidate has both quotes and its spread is the
claimed formula value 4, within the maximum 10. -/
theorem executeFindLiquidOptions_spec_witness :
    ((⟨"A", ⟨some (98/10), some (102/10), 10, some 4⟩⟩ : LiqResult).pricing.bid.isSome = true
      ∧ (⟨"A", ⟨some (98/10), some (102/10), 10, some 4⟩⟩ :
          LiqResult).pricing.ask.isSome = true)
    ∧ ((4 : ℚ) ≤ resolveMaxSpread (some 10)) := by
  have h := executeFindLiquidOptions_spec (some 10)
    [⟨"A", some ⟨some (98/10), some (102/10), 10⟩⟩,
      ⟨"B", some ⟨some (94/10), some (106/10), 10⟩⟩]
  have hmem : (⟨"A", ⟨some (98/10), some (102/10), 10, some 4⟩⟩ : LiqResult) ∈
      executeFindLiquidOptionsCore (some 10)
        [⟨"A", some ⟨some (98/10), some (102/10), 10⟩⟩,
          ⟨"B", some ⟨some (94/10), some (106/10), 10⟩⟩] := by
    rw [h.2.2.2.2.2]
    exact List.mem_singleton.mpr rfl
  exact ⟨h.1 _ hmem, h.2.2.1 _ hmem 4 rfl⟩

/-- Helper: a leg accepted by the leg validator satisfies the leg shape. -/
theorem validateLeg_sound (j : Json) (leg : Leg) (h : validateLeg j = some leg) :
    1 ≤ leg.instrument_name.length ∧ (leg.side = Side.buy ∨ leg.side = Side.sell) ∧
    0 < leg.amount := by
  cases j with
  | obj fields =>
      unfold validateLeg at h
      repeat' split at h
      all_goals first
        | exact Option.noConfusion h
        | (cases h; simp_all)
  | null => exact Option.noConfusion h
  | bool b => exact Option.noConfusion h
  | num q => exact Option.noConfusion h
  | str s => exact Option.noConfusion h
  | arr xs => exact Option.noConfusion h

/-- Helper: every leg of a list accepted by `optMapM validateLeg` comes from
some accepted JSON value. -/
theorem optMapM_mem (f : Json → Option Leg) :
    ∀ (l : List Json) (res : List Leg), optMapM f l = some res →
      ∀ b ∈ res, ∃ a, f a = some b := by
  intro l
  induction l with
  | nil =>
      intro res h b hb
      simp only [optMapM] at h
      cases h
      simp at hb
  | cons x xs ih =>
      intro res h b hb
      cases hfx : f x with
      | none =>
          simp only [optMapM, hfx] at h
          exact Option.noConfusion h
      | some y =>
          cases hrest : optMapM f xs with
          | none =>
              simp only [optMapM, hfx, hrest] at h
              exact Option.noConfusion h
          | some ys =>
              simp only [optMapM, hfx, hrest] at h
              cases h
              rcases List.mem_cons.mp hb with hb | hb
              · subst hb
                exact ⟨x, hfx⟩
              · exact ih ys hrest b hb

/-- Helper: a TradeSpec accepted by the validator satisfies the schema
shape. -/
theorem validateTradeSpec_sound (j : Json) (ts : TradeSpec)
    (h : validateTradeSpec j = some ts) : ValidTradeSpecShape ts := by
  cases j with
  | obj fields =>
      unfold validateTradeSpec at h
      repeat' split at h
      all_goals try exact Option.noConfusion h
      all_goals
        (cases h;
          rename_i legs heqmm hcond;
          obtain ⟨h₁, h₂, h₃, h₄, h₅, h₆, h₇⟩ := hcond;
          refine ⟨h₁, h₂, h₃, h₄, ?_, h₅, h₆, h₇⟩;
          intro leg hleg;
          obtain ⟨a, ha⟩ := optMapM_mem validateLeg _ legs heqmm leg hleg;
          exact validateLeg_sound a leg ha)
  | null => exact Option.noConfusion h
  | bool b => exact Option.noConfusion h
  | num q => exact Option.noConfusion h
  | str s => exact Option.noConfusion h
  | arr xs => exact Option.noConfusion h

/-- Helper: a successful parse-and-validate yields a schema-shaped spec. -/
theorem parseAndValidate_sound (cs : List Char) (ts : TradeSpec)
    (h : parseAndValidate cs = Except.ok ts) : ValidTradeSpecShape ts := by
  unfold parseAndValidate at h
  cases hj : jsonParseChars cs with
  | none =>
      rw [hj] at h
      exact Except.noConfusion h
  | some v =>
      rw [hj] at h
      dsimp only at h
      cases hv : validateTradeSpec v with
      | none =>
          rw [hv] at h
          exact Except.noConfusion h
      | some ts₂ =>
          rw [hv] at h
          cases h
          exact validateTradeSpec_sound v ts hv

/-- Claim C5 (counterexample): for a model answer holding a schema-valid
fenced TradeSpec followed by a brace pair in the commentary, the claimed
selection order (fenced block first) extracts the TradeSpec, but the code
selects the brace span — which crosses the fence — and fails to parse. -/
theorem extractTradeSpec_order_counterexample :
    parseAndValidate (selectCandidateClaim ex5Text) = Except.ok ex5Spec
    ∧ extractTradeSpec ex5Text = Except.error ExtractErr.parseError :=
  ⟨by set_option maxRecDepth 10000 in with_unfolding_all rfl,
    by set_option maxRecDepth 10000 in with_unfolding_all rfl⟩

/-- Claim C5 (amended): `extractTradeSpec` selects the candidate JSON string
by the priority brace-span first (the greedy span from the first left brace
to the last right brace) when one exists, else the fenced-block content, else
the raw trimmed text — the brace span overwrites the fenced content because
the source applies the two regexes sequentially; the selected candidate is
then parsed and validated against the TradeSpec shape, and every successful
extraction satisfies that shape (non-empty legs, amount > 0, side buy or
sell, non-negative cost and loss, non-empty strings). -/
theorem extractTradeSpec_spec (text : String) :
    extractTradeSpec text = parseAndValidate (selectCandidateAmended text)
    ∧ (∀ j ts, validateTradeSpec j = some ts → ValidTradeSpecShape ts)
    ∧ (∀ s ts, parseAndValidate s = Except.ok ts → ValidTradeSpecShape ts) := by
  refine ⟨?_, fun j ts h => validateTradeSpec_sound j ts h,
    fun s ts h => parseAndValidate_sound s ts h⟩
  unfold extractTradeSpec selectCandidate selectCandidateAmended
  cases hb : braceCandidate text.data <;> cases hf : fencedCandidate text.data <;>
    simp [hb, hf]

/-- Witness for `extractTradeSpec_spec`: the concrete valid TradeSpec text is
extracted and satisfies the validated shape. -/
theorem extractTradeSpec_spec_witness : ValidTradeSpecShape ex5Spec :=
  (extractTradeSpec_spec ex5Json).2.2 (selectCandidate ex5Json) ex5Spec
    (by set_option maxRecDepth 10000 in with_unfolding_all rfl)

/-- Claim C2: a model turn with no new tool-use blocks that signals
completion (`end_turn` with non-empty text) is not accepted as done while
fewer than 2 tool invocations have occurred: the loop appends the assistant
text and an explicit corrective instruction to the conversation and retries,
and the retry consumes one unit of the iteration budget (the fuel drops from
`n + 1` to `n`). -/
theorem parseIntent_corrective_retry (responses : ℕ → ModelResponse)
    (toolExec : String → String → Except String String) (n : ℕ) (st : LoopState)
    (hnew : newToolUses st.toolIdsProcessed (responses st.callIndex).content = [])
    (hstop : (responses st.callIndex).stop_reason = "end_turn")
    (htext : textOf (responses st.callIndex).content ≠ "")
    (hcount : st.toolCallCount < 2) :
    runLoop responses toolExec (n + 1) st =
      runLoop responses toolExec n
        { messages := st.messages ++
            [Message.assistantContent
                [ContentBlock.text (textOf (responses st.callIndex).content)],
              Message.userText (correctiveMessage st.toolCallCount)],
          toolCallCount := st.toolCallCount,
          toolIdsProcessed := st.toolIdsProcessed,
          callIndex := st.callIndex + 1 } := by
  simp only [runLoop]
  rw [if_neg (not_not_intro hnew), if_pos ⟨hstop, htext⟩, if_pos hcount]

/-- Witness for `parseIntent_corrective_retry`: a concrete state with one
prior tool call and a text-only completion turn. -/
theorem parseIntent_corrective_retry_witness :
    runLoop (fun _ => ⟨[ContentBlock.text "hello"], "end_turn"⟩)
        (fun _ _ => Except.ok "r") 2 ⟨[], 1, [], 0⟩ =
      runLoop (fun _ => ⟨[ContentBlock.text "hello"], "end_turn"⟩)
        (fun _ _ => Except.ok "r") 1
        { messages := ([] : List Message) ++
            [Message.assistantContent
                [ContentBlock.text (textOf [ContentBlock.text "hello"])],
              Message.userText (correctiveMessage 1)],
          toolCallCount := 1,
          toolIdsProcessed := [],
          callIndex := 0 + 1 } :=
  parseIntent_corrective_retry (fun _ => ⟨[ContentBlock.text "hello"], "end_turn"⟩)
    (fun _ _ => Except.ok "r") 1 ⟨[], 1, [], 0⟩ rfl rfl (by decide) (by decide)

/-- Helper: each loop pass makes at most one model call, so the final call
count is bounded by the fuel. -/
theorem runLoop_callIndex (responses : ℕ → ModelResponse)
    (toolExec : String → String → Except String String) :
    ∀ (n : ℕ) (st : LoopState),
      (runLoop responses toolExec n st).2.callIndex ≤ st.callIndex + n := by
  intro n
  induction n with
  | zero =>
      intro st
      simp [runLoop]
  | succ n ih =>
      intro st
      simp only [runLoop]
      repeat' split
      all_goals first
        | (refine le_trans (ih _) ?_; simp; omega)
        | (simp; try omega)

/-- Helper: any TradeSpec the loop returns has passed schema validation. -/
theorem runLoop_ok_shape (responses : ℕ → ModelResponse)
    (toolExec : String → String → Except String String) :
    ∀ (n : ℕ) (st : LoopState) (ts : TradeSpec),
      (runLoop responses toolExec n st).1 = Except.ok ts → ValidTradeSpecShape ts := by
  intro n
  induction n with
  | zero =>
      intro st ts h
      exact Except.noConfusion h
  | succ n ih =>
      intro st ts h
      simp only [runLoop] at h
      repeat' split at h
      all_goals first
        | exact ih _ ts h
        | exact Except.noConfusion h
        | (rename_i ts2 heq;
            have h' : Except.ok ts2 = Except.ok ts := h;
            injection h' with h'';
            subst h'';
            unfold extractTradeSpec at heq;
            exact parseAndValidate_sound _ _ heq)

/-- Claim C7: the loop makes at most `MAX_ITERATIONS = 10` model calls;
when the budget is exhausted without an accepted TradeSpec it returns the
fatal max-iterations error; and every TradeSpec it does return has passed
the schema validation (no partial or unvalidated TradeSpec is ever
returned). -/
theorem parseIntent_bounded (responses : ℕ → ModelResponse)
    (toolExec : String → String → Except String String) (intent : String) :
    ((parseIntent responses toolExec intent).2.callIndex ≤ MAX_ITERATIONS)
    ∧ (∀ st : LoopState, runLoop responses toolExec 0 st =
        (Except.error (LoopError.maxIterationsExceeded MAX_ITERATIONS), st))
    ∧ (∀ ts, (parseIntent responses toolExec intent).1 = Except.ok ts →
        ValidTradeSpecShape ts) := by
  refine ⟨?_, fun st => rfl,
    fun ts h => runLoop_ok_shape responses toolExec MAX_ITERATIONS _ ts h⟩
  have := runLoop_callIndex responses toolExec MAX_ITERATIONS
    ⟨[Message.userText (initialUserMessage intent)], 0, [], 0⟩
  simpa [parseIntent] using this

/-- Witness for `parseIntent_bounded`: a concrete oracle that uses two tools
and then answers with a valid raw-JSON TradeSpec; the returned spec satisfies
the validated shape. -/
theorem parseIntent_bounded_witness :
    (parseIntent exResponses exToolExec "buy a call").2.callIndex ≤ MAX_ITERATIONS
    ∧ ValidTradeSpecShape ex5Spec :=
  ⟨(parseIntent_bounded exResponses exToolExec "buy a call").1,
    (parseIntent_bounded exResponses exToolExec "buy a call").2.2 ex5Spec
      (by set_option maxRecDepth 10000 in with_unfolding_all rfl)⟩

end IntentOptions
